import Mathlib

/-!
Shallow embedding of the Puppet coordinator (`src/puppet/server.js`).

The coordinator is a single-threaded, event-driven WebSocket router.  We model
it as an explicit state machine: `ServerState` mirrors the module-level mutable
state of `server.js` (the agent slot, the request counter, the pending-command
map, the client set) together with the per-connection `role`/`clientInfo`
closure variables (the `conns` map) and the scheduled `setTimeout` timers (the
`timers` map: active timer id to the `commandId` captured by its callback).

`step` processes one runtime event — a new connection, an incoming frame on a
connection (`none` payload = a frame `JSON.parse` rejects), a socket close, or
a timer callback invocation — and returns the next state plus the list of
emitted actions (`socket.send` / `socket.close` calls), in emission order.

Modelling conventions:
* JS `Map` becomes an insertion-ordered association list; `Map.set` replaces
  in place, `Map.delete` removes the entry.
* Absent JSON fields become `none`; the source's `x || d` defaulting on those
  fields is `Option.getD` (the source would also default an empty string,
  which this embedding does not distinguish from a present value).
* Opaque payloads (`params`, `data`) are carried as uninterpreted strings;
  `message.params || {}` is `getD "{}"`.
* A timer that was `clearTimeout`-ed is removed from `timers`; firing a
  removed timer is a no-op, so traces may mention any `timerFire` event.
* `broadcast` sends only to clients whose socket's `readyState` is `OPEN`,
  modelled as membership of the socket in `conns` (the open connections).
* `clients.delete(clientInfo)` removes the one `ClientIdentity` registered for
  the socket (a connection identifies at most once), modelled as filtering by
  socket.
-/

namespace Puppet

abbrev ConnId := Nat
abbrev TimerId := Nat

/-- Association-list read, first match (JS `Map.get`). -/
def alGet {α β : Type} [DecidableEq α] (k : α) : List (α × β) → Option β
  | [] => none
  | p :: rest => if p.1 = k then some p.2 else alGet k rest

/-- Association-list write: replace in place if present, else append
(JS `Map.set`, preserving insertion order). -/
def alSet {α β : Type} [DecidableEq α] (k : α) (v : β) : List (α × β) → List (α × β)
  | [] => [(k, v)]
  | p :: rest => if p.1 = k then (k, v) :: rest else p :: alSet k v rest

/-- Association-list removal of the entry for a key (JS `Map.delete`). -/
def alDelete {α β : Type} [DecidableEq α] (k : α) : List (α × β) → List (α × β)
  | [] => []
  | p :: rest => if p.1 = k then rest else p :: alDelete k rest

/-- Agent metadata recorded by `registerAgent`. -/
structure AgentInfo where
  agentId : String
  name : String
  version : String
deriving DecidableEq, Repr

/-- The `agentConnection` record: socket plus declared metadata. -/
structure AgentConn where
  socket : ConnId
  info : AgentInfo
deriving DecidableEq, Repr

/-- A member of the `clients` set (`{ socket, name }`). -/
structure ClientIdentity where
  socket : ConnId
  name : String
deriving DecidableEq, Repr

/-- A `pendingCommands` entry: originating client and its deadline timer. -/
structure Pending where
  client : ConnId
  timeout : TimerId
deriving DecidableEq, Repr

/-- The per-connection `role` closure variable. -/
inductive Role where
  | agent
  | client
deriving DecidableEq, Repr

/-- A parsed incoming JSON frame; every field the server inspects, `none` when
the key is absent. -/
structure Message where
  type : Option String := none
  role : Option String := none
  secret : Option String := none
  apiKey : Option String := none
  name : Option String := none
  agentId : Option String := none
  version : Option String := none
  id : Option String := none
  method : Option String := none
  params : Option String := none
  success : Option Bool := none
  data : Option String := none
  error : Option String := none
  event : Option String := none
deriving DecidableEq, Repr

/-- An outgoing JSON frame, one constructor per object shape the server
stringifies. -/
inductive OutMsg where
  | errorMsg (error : String)
  | ready (role : String) (agentId : Option String)
  | response (id : Option String) (success : Option Bool) (data : Option String)
      (error : Option String)
  | command (id : String) (method : Option String) (params : String)
  | agentStatus (status : String) (info : Option AgentInfo)
  | eventMsg (event : Option String) (data : Option String)
deriving DecidableEq, Repr

/-- An observable effect: a `socket.send` or a server-initiated
`socket.close(code, reason)`. -/
inductive Action where
  | send (dest : ConnId) (msg : OutMsg)
  | closeConn (dest : ConnId) (code : Nat) (reason : String)
deriving DecidableEq, Repr

/-- The coordinator state: `server.js` module state plus per-connection role
state and the scheduled timers. -/
structure ServerState where
  agentConnection : Option AgentConn
  requestCounter : Nat
  pendingCommands : List (String × Pending)
  clients : List ClientIdentity
  conns : List (ConnId × Option Role)
  timers : List (TimerId × String)
  nextTimer : TimerId
deriving DecidableEq, Repr

/-- The initial module state. -/
def initState : ServerState where
  agentConnection := none
  requestCounter := 0
  pendingCommands := []
  clients := []
  conns := []
  timers := []
  nextTimer := 0

/-- The security-relevant configuration (`config.security`). -/
structure Config where
  apiKey : Option String := none
  agentSecret : Option String := none
  allowedOrigins : List String := ["*"]
deriving DecidableEq, Repr

/-- The source's `isOriginAllowed(origin)` — defined by the source but
never called on the connection path. -/
def isOriginAllowed (cfg : Config) (origin : Option String) : Bool :=
  match origin with
  | none => true
  | some o =>
    if cfg.allowedOrigins.contains "*" then true else cfg.allowedOrigins.contains o

/-- The source's `authorizeClient(apiKey)`. -/
def authorizeClient (cfg : Config) (apiKey : Option String) : Bool :=
  match cfg.apiKey with
  | none => true
  | some k => apiKey = some k

/-- The source's `authorizeAgent(secret)`. -/
def authorizeAgent (cfg : Config) (secret : Option String) : Bool :=
  match cfg.agentSecret with
  | none => true
  | some k => secret = some k

/-- A runtime event delivered to the coordinator's event loop. -/
inductive Event where
  | connect (c : ConnId) (origin : Option String)
  | message (c : ConnId) (raw : Option Message)
  | close (c : ConnId)
  | timerFire (t : TimerId)
deriving DecidableEq, Repr

/-- The source's `broadcast(message)`: send to every registered client whose socket is open. -/
def broadcast (s : ServerState) (msg : OutMsg) : List Action :=
  (s.clients.filter (fun ci => (alGet ci.socket s.conns).isSome)).map
    (fun ci => .send ci.socket msg)

/-- The `agent-status` frame built by `notifyClientAgentStatus`. -/
def statusMessage (s : ServerState) : OutMsg :=
  .agentStatus (match s.agentConnection with | some _ => "online" | none => "offline")
    (s.agentConnection.map (fun a => a.info))

/-- First-message handling for an unidentified connection: the identify gate,
`registerAgent`, and client registration. -/
def handleIdentify (cfg : Config) (s : ServerState) (c : ConnId) (m : Message) :
    ServerState × List Action :=
  if m.type ≠ some "identify" then
    (s, [.send c (.errorMsg "Identification required"), .closeConn c 1008 "Identify first"])
  else if m.role = some "agent" then
    if ¬ authorizeAgent cfg m.secret then
      (s, [.send c (.errorMsg "Unauthorized agent"), .closeConn c 1011 "Unauthorized"])
    else
      let info : AgentInfo :=
        ⟨m.agentId.getD "default-agent", m.name.getD "supextension-agent",
          m.version.getD "1.0.0"⟩
      let s2 := { s with conns := alSet c (some .agent) s.conns,
                         agentConnection := some ⟨c, info⟩ }
      (s2, .send c (.ready "agent" (some info.agentId)) ::
        broadcast s2 (.agentStatus "online" (some info)))
  else if m.role = some "client" then
    if ¬ authorizeClient cfg m.apiKey then
      (s, [.send c (.errorMsg "Unauthorized client"), .closeConn c 1011 "Unauthorized"])
    else
      let ci : ClientIdentity := ⟨c, m.name.getD "remote-client"⟩
      let s2 := { s with conns := alSet c (some .client) s.conns,
                         clients := s.clients ++ [ci] }
      (s2, [.send c (.ready "client" none), .send c (statusMessage s2)])
  else
    (s, [.send c (.errorMsg "Unknown role"), .closeConn c 1008 "Unknown role"])

/-- The effective correlation id of a client command:
`message.id || cmd_${++requestCounter}`. -/
def effId (s : ServerState) (m : Message) : String :=
  match m.id with
  | some i => i
  | none => "cmd_" ++ toString (s.requestCounter + 1)

/-- The source's `handleClientMessage(socket, message)`. -/
def handleClientMessage (s : ServerState) (c : ConnId) (m : Message) :
    ServerState × List Action :=
  if m.type ≠ some "command" then
    (s, [.send c (.errorMsg "Unsupported client message type")])
  else
    match s.agentConnection with
    | none =>
      (s, [.send c (.response m.id (some false) none (some "No agent connected"))])
    | some ag =>
      let commandId := effId s m
      let counter2 := match m.id with | some _ => s.requestCounter | none => s.requestCounter + 1
      let t := s.nextTimer
      ({ s with requestCounter := counter2,
                pendingCommands := alSet commandId ⟨c, t⟩ s.pendingCommands,
                timers := (t, commandId) :: s.timers,
                nextTimer := t + 1 },
       [.send ag.socket (.command commandId m.method (m.params.getD "\x7b\x7d"))])

/-- The source's `handleAgentMessage(socket, message)`. -/
def handleAgentMessage (s : ServerState) (c : ConnId) (m : Message) :
    ServerState × List Action :=
  if s.agentConnection.map (fun a => a.socket) ≠ some c then (s, [])
  else if m.type = some "response" then
    match m.id with
    | none => (s, [])
    | some i =>
      match alGet i s.pendingCommands with
      | none => (s, [])
      | some p =>
        ({ s with timers := alDelete p.timeout s.timers,
                  pendingCommands := alDelete i s.pendingCommands },
         [.send p.client (.response (some i) m.success m.data m.error)])
  else if m.type = some "event" then
    (s, broadcast s (.eventMsg m.event m.data))
  else (s, [])

/-- The source's `failPendingCommands(reason)`: clear every deadline timer, send each owner
a failure envelope, clear the registry. -/
def failPendingCommands (s : ServerState) (reason : String) :
    ServerState × List Action :=
  ({ s with pendingCommands := [],
            timers := s.pendingCommands.foldl (fun ts q => alDelete q.2.timeout ts) s.timers },
   s.pendingCommands.map
     (fun q => .send q.2.client (.response (some q.1) (some false) none (some reason))))

/-- The source's `cleanupPendingForClient(socket)`: drop this client's records and their
timers, silently. -/
def cleanupPendingForClient (s : ServerState) (c : ConnId) : ServerState :=
  { s with
      pendingCommands := s.pendingCommands.filter (fun q => q.2.client ≠ c),
      timers := s.pendingCommands.foldl
        (fun ts q => if q.2.client = c then alDelete q.2.timeout ts else ts) s.timers }

/-- The `socket.on('close')` handler. -/
def handleClose (s : ServerState) (c : ConnId) : ServerState × List Action :=
  match alGet c s.conns with
  | none => (s, [])
  | some r =>
    let s0 := { s with conns := alDelete c s.conns }
    match r with
    | some .agent =>
      if s0.agentConnection.map (fun a => a.socket) = some c then
        let s1 := { s0 with agentConnection := none }
        let p := failPendingCommands s1 "Agent disconnected"
        (p.1, p.2 ++ broadcast p.1 (.agentStatus "offline" none))
      else (s0, [])
    | some .client =>
      ({ cleanupPendingForClient s0 c with
           clients := s0.clients.filter (fun ci => ci.socket ≠ c) }, [])
    | none => (s0, [])

/-- Invocation of a `setTimeout` callback created by `handleClientMessage`:
a no-op if the timer was cleared, else the timeout path guarded by
`pendingCommands.has(commandId)`. -/
def fireTimer (s : ServerState) (t : TimerId) : ServerState × List Action :=
  match alGet t s.timers with
  | none => (s, [])
  | some cmdId =>
    let s0 := { s with timers := alDelete t s.timers }
    match alGet cmdId s0.pendingCommands with
    | none => (s0, [])
    | some p =>
      ({ s0 with pendingCommands := alDelete cmdId s0.pendingCommands },
       [.send p.client (.response (some cmdId) (some false) none (some "Command timeout"))])

/-- One event-loop turn of the coordinator. -/
def step (cfg : Config) (s : ServerState) : Event → ServerState × List Action
  | .connect c _ => ({ s with conns := alSet c none s.conns }, [])
  | .message c raw =>
    match alGet c s.conns with
    | none => (s, [])
    | some r =>
      match raw with
      | none => (s, [.send c (.errorMsg "Invalid message format")])
      | some m =>
        match r with
        | none => handleIdentify cfg s c m
        | some .agent => handleAgentMessage s c m
        | some .client => handleClientMessage s c m
  | .close c => handleClose s c
  | .timerFire t => fireTimer s t

/-- Run a sequence of events, accumulating emitted actions in order. -/
def run (cfg : Config) (s : ServerState) : List Event → ServerState × List Action
  | [] => (s, [])
  | e :: evs =>
    let p := step cfg s e
    let q := run cfg p.1 evs
    (q.1, p.2 ++ q.2)

/-! ### Derived predicates used by the verification -/

/-- Does this action deliver a `response` envelope with correlation id `X` to
connection `c`?  These are exactly the terminal responses of the spec. -/
def isTerminal (c : ConnId) (X : String) : Action → Bool
  | .send d (.response i _ _ _) => d = c && i = some X
  | _ => false

/-- Number of terminal responses for `(c, X)` among emitted actions. -/
def termCount (c : ConnId) (X : String) (acts : List Action) : Nat :=
  (acts.filter (isTerminal c X)).length

/-- Does the action list contain a server-initiated close of connection `c`? -/
def closesConn (c : ConnId) (acts : List Action) : Bool :=
  acts.any (fun a => match a with | .closeConn d _ _ => d = c | _ => false)

/-- Side condition for the exactly-once guarantee: the event neither closes a
connection nor is a command whose effective correlation id collides with `X`. -/
def okEvent (X : String) (s : ServerState) : Event → Bool
  | .close _ => false
  | .message _ (some m) =>
    if m.type = some "command" ∧ effId s m = X then false else true
  | _ => true

/-- Predicate `okEvent` holding along a whole event sequence (state-dependently). -/
def conds (cfg : Config) (X : String) : ServerState → List Event → Bool
  | _, [] => true
  | s, e :: evs => okEvent X s e && conds cfg X (step cfg s e).1 evs

/-- Side condition for C9: connection `c1` never issues a command whose
effective correlation id is `X`.  All other events, including closes, are
unconstrained. -/
def okOwner (c1 : ConnId) (X : String) (s : ServerState) : Event → Bool
  | .message d (some m) =>
    if d = c1 ∧ m.type = some "command" ∧ effId s m = X then false else true
  | _ => true

/-- Predicate `okOwner` holding along a whole event sequence. -/
def condsOwner (cfg : Config) (c1 : ConnId) (X : String) :
    ServerState → List Event → Bool
  | _, [] => true
  | s, e :: evs => okOwner c1 X s e && condsOwner cfg c1 X (step cfg s e).1 evs

/-- The pending registry has no duplicate correlation ids (a JS `Map`). -/
def pendingKeysNodup (s : ServerState) : Prop :=
  (s.pendingCommands.map Prod.fst).Nodup

/-- The active-timer table has no duplicate timer ids. -/
def timerKeysNodup (s : ServerState) : Prop :=
  (s.timers.map Prod.fst).Nodup

/-- Every active timer id predates the next timer id to be allotted. -/
def timersFresh (s : ServerState) : Prop :=
  ∀ p ∈ s.timers, p.1 < s.nextTimer

/-- Every pending record's deadline timer is still scheduled and its callback
captured exactly that record's correlation id. -/
def pendingTimersLive (s : ServerState) : Prop :=
  ∀ q ∈ s.pendingCommands, alGet q.2.timeout s.timers = some q.1

/-- The registry/timer well-formedness invariant of the coordinator state. -/
def GInv (s : ServerState) : Prop :=
  pendingKeysNodup s ∧ timerKeysNodup s ∧ timersFresh s ∧ pendingTimersLive s

instance (s : ServerState) : Decidable (pendingKeysNodup s) := by
  unfold pendingKeysNodup; infer_instance

instance (s : ServerState) : Decidable (timerKeysNodup s) := by
  unfold timerKeysNodup; infer_instance

instance (s : ServerState) : Decidable (timersFresh s) := by
  unfold timersFresh; infer_instance

instance (s : ServerState) : Decidable (pendingTimersLive s) := by
  unfold pendingTimersLive; infer_instance

instance (s : ServerState) : Decidable (GInv s) := by
  unfold GInv; infer_instance

/-- Phase A of the exactly-once argument: command `X` of client `c` is pending
with deadline timer `t`, the timer is scheduled and is the only scheduled
timer whose callback captured `X`, and the agent slot is occupied. -/
def InvA (c : ConnId) (X : String) (t : TimerId) (s : ServerState) : Prop :=
  GInv s ∧ s.agentConnection.isSome = true ∧
  alGet X s.pendingCommands = some ⟨c, t⟩ ∧
  alGet t s.timers = some X ∧
  (∀ p ∈ s.timers, p.2 = X → p.1 = t)

/-- Phase B of the exactly-once argument: command `X` has been resolved and is
no longer pending; the agent slot is occupied. -/
def InvB (X : String) (s : ServerState) : Prop :=
  GInv s ∧ s.agentConnection.isSome = true ∧ alGet X s.pendingCommands = none

/-- C9 invariant: whatever record currently sits under id `X` is not owned by
connection `c1`. -/
def InvOwner (c1 : ConnId) (X : String) (s : ServerState) : Prop :=
  GInv s ∧ ∀ p, alGet X s.pendingCommands = some p → p.client ≠ c1

/-- Rewrite the `Origin` header of a connection event, leaving every other
event untouched. -/
def mapOrigin (f : Option String → Option String) : Event → Event
  | .connect c o => .connect c (f o)
  | e => e

/-- Rewrite the `Origin` header of each connection event in a trace. -/
def mapOrigins (f : Option String → Option String) : List Event → List Event :=
  List.map (mapOrigin f)

/-! ### Concrete fixtures for witnesses and counterexamples -/

/-- Open configuration: no API key, no agent secret. -/
def cfgOpen : Config := {}

/-- A locked-down configuration with an empty allow-list. -/
def cfgNoOrigins : Config := { allowedOrigins := [] }

/-- The frame `{type:"identify", role:"agent"}`. -/
def msgIdentifyAgent : Message := { type := some "identify", role := some "agent" }

/-- The frame `{type:"identify", role:"client"}`. -/
def msgIdentifyClient : Message := { type := some "identify", role := some "client" }

/-- The frame `{type:"command", id, method}`. -/
def msgCommand (i meth : String) : Message :=
  { type := some "command", id := some i, method := some meth }

/-- The frame `{type:"response", id, success:true, data:"payload"}`. -/
def msgResponse (i : String) : Message :=
  { type := some "response", id := some i, success := some true, data := some "payload" }

/-- Fixture: agent identified on connection 0, a client on connection 1. -/
def stateAC : ServerState :=
  (run cfgOpen initState
    [.connect 0 none, .message 0 (some msgIdentifyAgent),
     .connect 1 none, .message 1 (some msgIdentifyClient)]).1

/-- Fixture: agent on connection 0, clients on connections 1 and 2. -/
def stateACC : ServerState :=
  (run cfgOpen initState
    [.connect 0 none, .message 0 (some msgIdentifyAgent),
     .connect 1 none, .message 1 (some msgIdentifyClient),
     .connect 2 none, .message 2 (some msgIdentifyClient)]).1

/-- The id-collision trace refuting the bare exactly-once claim: client 1
issues command `"x"` while the agent is connected, client 2 then issues a
command with the same id, the agent answers `"x"`, and both allotted timers
are invoked. -/
def collisionSuffix : List Event :=
  [.message 2 (some (msgCommand "x" "navigate")),
   .message 0 (some (msgResponse "x")),
   .timerFire 0, .timerFire 1]

/-- Fixture: a single identified client on connection 1 and no agent. -/
def stateClientOnly : ServerState :=
  (run cfgOpen initState [.connect 1 none, .message 1 (some msgIdentifyClient)]).1

/-- Fixture: agent on 0, clients on 1 and 2, pending commands `"a"` (from
client 1) and `"b"` (from client 2). -/
def stateTwoPending : ServerState :=
  (run cfgOpen stateACC
    [.message 1 (some (msgCommand "a" "navigate")),
     .message 2 (some (msgCommand "b" "getDOM"))]).1

/-- Fixture: `stateAC` plus pending command `"a"` from client 1 and a fresh
unidentified connection 3. -/
def statePendingNewConn : ServerState :=
  (run cfgOpen stateAC
    [.message 1 (some (msgCommand "a" "navigate")), .connect 3 none]).1

/-- Fixture: agent on 0, clients on 1 and 2, command `"x"` issued by client 1
and still pending (its deadline timer is timer 0). -/
def stateCollision : ServerState :=
  (run cfgOpen stateACC [.message 1 (some (msgCommand "x" "navigate"))]).1

/-! ### Association-list lemmas -/

section AListLemmas

variable {α β : Type} [DecidableEq α]

theorem alGet_alSet_self (k : α) (v : β) (l : List (α × β)) :
    alGet k (alSet k v l) = some v := by
  induction l with
  | nil => simp [alGet, alSet]
  | cons p rest ih =>
    by_cases h : p.1 = k
    · simp [alGet, alSet, h]
    · simp [alGet, alSet, h, ih]

theorem alGet_alSet_ne {k k' : α} (v : β) (l : List (α × β)) (h : k' ≠ k) :
    alGet k' (alSet k v l) = alGet k' l := by
  induction l with
  | nil => simp [alGet, alSet, Ne.symm h]
  | cons p rest ih =>
    by_cases hp : p.1 = k
    · subst hp
      simp [alGet, alSet, Ne.symm h]
    · by_cases hp' : p.1 = k'
      · simp [alGet, alSet, hp, hp', h]
      · simp [alGet, alSet, hp, hp', ih]

theorem alGet_alDelete_ne {k k' : α} (l : List (α × β)) (h : k' ≠ k) :
    alGet k' (alDelete k l) = alGet k' l := by
  induction l with
  | nil => simp [alDelete]
  | cons p rest ih =>
    by_cases hp : p.1 = k
    · subst hp
      simp [alGet, alDelete, Ne.symm h]
    · by_cases hp' : p.1 = k'
      · simp [alGet, alDelete, hp, hp', h]
      · simp [alGet, alDelete, hp, hp', ih]

theorem alDelete_sublist (k : α) (l : List (α × β)) : (alDelete k l).Sublist l := by
  induction l with
  | nil => simp [alDelete]
  | cons p rest ih =>
    by_cases hp : p.1 = k
    · simp only [alDelete, hp, if_pos]
      exact List.sublist_cons_self p rest
    · simp only [alDelete, hp, if_neg, not_false_iff]
      exact ih.cons₂ p

theorem mem_alDelete {k : α} {l : List (α × β)} {p : α × β} (h : p ∈ alDelete k l) :
    p ∈ l :=
  (alDelete_sublist k l).mem h

theorem nodup_keys_alDelete {k : α} {l : List (α × β)}
    (h : (l.map Prod.fst).Nodup) : ((alDelete k l).map Prod.fst).Nodup :=
  h.sublist ((alDelete_sublist k l).map Prod.fst)

theorem mem_of_alGet {k : α} {v : β} {l : List (α × β)} (h : alGet k l = some v) :
    (k, v) ∈ l := by
  induction l with
  | nil => simp [alGet] at h
  | cons p rest ih =>
    obtain ⟨a, b⟩ := p
    by_cases hp : a = k
    · subst hp
      simp only [alGet, if_pos] at h
      injection h with h
      subst h
      exact List.mem_cons_self _ _
    · simp only [alGet, hp, if_neg, not_false_iff] at h
      exact List.mem_cons_of_mem _ (ih h)

theorem alGet_eq_none_of_forall {k : α} {l : List (α × β)}
    (h : ∀ p ∈ l, p.1 ≠ k) : alGet k l = none := by
  induction l with
  | nil => simp [alGet]
  | cons p rest ih =>
    simp only [alGet, h p (List.mem_cons_self p rest), if_neg, not_false_iff]
    exact ih fun q hq => h q (List.mem_cons_of_mem _ hq)

theorem forall_ne_of_alGet_eq_none {k : α} {l : List (α × β)}
    (h : alGet k l = none) : ∀ p ∈ l, p.1 ≠ k := by
  intro p hp hk
  induction l with
  | nil => cases hp
  | cons q rest ih =>
    by_cases hq : q.1 = k
    · simp [alGet, hq] at h
    · simp only [alGet, hq, if_neg, not_false_iff] at h
      rcases List.mem_cons.mp hp with h1 | h1
      · exact hq (h1 ▸ hk)
      · exact ih h h1

theorem alGet_none_alDelete {k k' : α} {l : List (α × β)}
    (h : alGet k l = none) : alGet k (alDelete k' l) = none := by
  apply alGet_eq_none_of_forall
  intro p hp
  exact forall_ne_of_alGet_eq_none h p (mem_alDelete hp)

theorem ne_of_mem_alDelete_nodup {k : α} {l : List (α × β)} {p : α × β}
    (hnd : (l.map Prod.fst).Nodup) (h : p ∈ alDelete k l) : p.1 ≠ k := by
  induction l with
  | nil => simp [alDelete] at h
  | cons q rest ih =>
    simp only [List.map_cons, List.nodup_cons] at hnd
    by_cases hq : q.1 = k
    · subst hq
      simp only [alDelete, if_pos] at h
      intro hk
      exact hnd.1 (hk ▸ List.mem_map_of_mem Prod.fst h)
    · simp only [alDelete, hq, if_neg, not_false_iff] at h
      rcases List.mem_cons.mp h with h1 | h1
      · exact h1 ▸ hq
      · exact ih hnd.2 h1

theorem alGet_alDelete_self {k : α} {l : List (α × β)}
    (hnd : (l.map Prod.fst).Nodup) : alGet k (alDelete k l) = none :=
  alGet_eq_none_of_forall fun p hp => ne_of_mem_alDelete_nodup hnd hp

theorem alGet_of_mem {k : α} {v : β} {l : List (α × β)}
    (hnd : (l.map Prod.fst).Nodup) (h : (k, v) ∈ l) : alGet k l = some v := by
  induction l with
  | nil => cases h
  | cons p rest ih =>
    simp only [List.map_cons, List.nodup_cons] at hnd
    rcases List.mem_cons.mp h with h1 | h1
    · simp [alGet, ← h1]
    · have hp : p.1 ≠ k := by
        intro hk
        exact hnd.1 (hk ▸ List.mem_map_of_mem Prod.fst h1)
      simp [alGet, hp, ih hnd.2 h1]

theorem mem_alSet {k : α} {v : β} {l : List (α × β)} {p : α × β}
    (h : p ∈ alSet k v l) : p = (k, v) ∨ p ∈ l := by
  induction l with
  | nil => simpa [alSet] using h
  | cons q rest ih =>
    by_cases hq : q.1 = k
    · simp only [alSet, hq, if_pos] at h
      rcases List.mem_cons.mp h with h1 | h1
      · exact Or.inl h1
      · exact Or.inr (List.mem_cons_of_mem _ h1)
    · simp only [alSet, hq, if_neg, not_false_iff] at h
      rcases List.mem_cons.mp h with h1 | h1
      · exact Or.inr (h1 ▸ List.mem_cons_self q rest)
      · rcases ih h1 with h2 | h2
        · exact Or.inl h2
        · exact Or.inr (List.mem_cons_of_mem _ h2)

theorem nodup_keys_alSet {k : α} {v : β} {l : List (α × β)}
    (hnd : (l.map Prod.fst).Nodup) : ((alSet k v l).map Prod.fst).Nodup := by
  induction l with
  | nil => simpa [alSet] using hnd
  | cons q rest ih =>
    simp only [List.map_cons, List.nodup_cons] at hnd
    by_cases hq : q.1 = k
    · subst hq
      simp only [alSet, if_pos, List.map_cons, List.nodup_cons]
      exact hnd
    · simp only [alSet, hq, if_neg, not_false_iff, List.map_cons, List.nodup_cons]
      constructor
      · intro hmem
        rcases List.mem_map.mp hmem with ⟨p, hp, hfst⟩
        rcases mem_alSet hp with h1 | h1
        · exact hq (by rw [h1] at hfst; exact hfst.symm)
        · exact hnd.1 (hfst ▸ List.mem_map_of_mem Prod.fst h1)
      · exact ih hnd.2

end AListLemmas

/-! ### Lemmas about the timer-clearing folds -/

theorem ffold_mono {t : TimerId} (L : List (String × Pending))
    (ts : List (TimerId × String)) (h : alGet t ts = none) :
    alGet t (L.foldl (fun a q => alDelete q.2.timeout a) ts) = none := by
  induction L generalizing ts with
  | nil => simpa using h
  | cons q L ih => exact ih _ (alGet_none_alDelete h)

theorem ffold_nodup (L : List (String × Pending)) (ts : List (TimerId × String))
    (h : (ts.map Prod.fst).Nodup) :
    ((L.foldl (fun a q => alDelete q.2.timeout a) ts).map Prod.fst).Nodup := by
  induction L generalizing ts with
  | nil => simpa using h
  | cons q L ih => exact ih _ (nodup_keys_alDelete h)

theorem ffold_mem {p : TimerId × String} (L : List (String × Pending))
    (ts : List (TimerId × String))
    (h : p ∈ L.foldl (fun a q => alDelete q.2.timeout a) ts) : p ∈ ts := by
  induction L generalizing ts with
  | nil => simpa using h
  | cons q L ih => exact mem_alDelete (ih _ h)

theorem ffold_hit (L : List (String × Pending)) (ts : List (TimerId × String))
    (hnd : (ts.map Prod.fst).Nodup) {q : String × Pending} (hq : q ∈ L) :
    alGet q.2.timeout (L.foldl (fun a r => alDelete r.2.timeout a) ts) = none := by
  induction L generalizing ts with
  | nil => cases hq
  | cons r L ih =>
    rcases List.mem_cons.mp hq with h1 | h1
    · subst h1
      exact ffold_mono L _ (alGet_alDelete_self hnd)
    · exact ih _ (nodup_keys_alDelete hnd) h1

theorem cfold_mono {t : TimerId} (c : ConnId) (L : List (String × Pending))
    (ts : List (TimerId × String)) (h : alGet t ts = none) :
    alGet t (L.foldl
      (fun a q => if q.2.client = c then alDelete q.2.timeout a else a) ts) = none := by
  induction L generalizing ts with
  | nil => exact h
  | cons q L ih =>
    simp only [List.foldl_cons]
    by_cases hc : q.2.client = c
    · rw [if_pos hc]
      exact ih _ (alGet_none_alDelete h)
    · rw [if_neg hc]
      exact ih _ h

theorem cfold_nodup (c : ConnId) (L : List (String × Pending))
    (ts : List (TimerId × String)) (h : (ts.map Prod.fst).Nodup) :
    (((L.foldl
      (fun a q => if q.2.client = c then alDelete q.2.timeout a else a) ts)).map
        Prod.fst).Nodup := by
  induction L generalizing ts with
  | nil => exact h
  | cons q L ih =>
    simp only [List.foldl_cons]
    by_cases hc : q.2.client = c
    · rw [if_pos hc]
      exact ih _ (nodup_keys_alDelete h)
    · rw [if_neg hc]
      exact ih _ h

theorem cfold_mem {p : TimerId × String} (c : ConnId) (L : List (String × Pending))
    (ts : List (TimerId × String))
    (h : p ∈ L.foldl
      (fun a q => if q.2.client = c then alDelete q.2.timeout a else a) ts) :
    p ∈ ts := by
  induction L generalizing ts with
  | nil => exact h
  | cons q L ih =>
    simp only [List.foldl_cons] at h
    by_cases hc : q.2.client = c
    · rw [if_pos hc] at h
      exact mem_alDelete (ih _ h)
    · rw [if_neg hc] at h
      exact ih _ h

theorem cfold_hit (c : ConnId) (L : List (String × Pending))
    (ts : List (TimerId × String)) (hnd : (ts.map Prod.fst).Nodup)
    {q : String × Pending} (hq : q ∈ L) (hc : q.2.client = c) :
    alGet q.2.timeout (L.foldl
      (fun a r => if r.2.client = c then alDelete r.2.timeout a else a) ts) = none := by
  induction L generalizing ts with
  | nil => cases hq
  | cons r L ih =>
    simp only [List.foldl_cons]
    rcases List.mem_cons.mp hq with h1 | h1
    · subst h1
      rw [if_pos hc]
      exact cfold_mono c L _ (alGet_alDelete_self hnd)
    · by_cases hr : r.2.client = c
      · rw [if_pos hr]
        exact ih _ (nodup_keys_alDelete hnd) h1
      · rw [if_neg hr]
        exact ih _ hnd h1

theorem cfold_miss {t : TimerId} (c : ConnId) (L : List (String × Pending))
    (ts : List (TimerId × String))
    (h : ∀ r ∈ L, r.2.client = c → r.2.timeout ≠ t) :
    alGet t (L.foldl
      (fun a r => if r.2.client = c then alDelete r.2.timeout a else a) ts)
      = alGet t ts := by
  induction L generalizing ts with
  | nil => rfl
  | cons r L ih =>
    simp only [List.foldl_cons]
    by_cases hr : r.2.client = c
    · have hne : t ≠ r.2.timeout := fun hh =>
        h r (List.mem_cons_self r L) hr hh.symm
      rw [if_pos hr, ih _ fun q hq => h q (List.mem_cons_of_mem _ hq),
        alGet_alDelete_ne _ hne]
    · rw [if_neg hr]
      exact ih _ fun q hq => h q (List.mem_cons_of_mem _ hq)

/-! ### Claim C3 -/

/-- C3: a command from an identified client while no agent is connected gets
an immediate `success:false` / `"No agent connected"` response carrying the
command's own id; the state — in particular the pending registry — is
unchanged and nothing else is sent. -/
theorem noAgent_reply (cfg : Config) (s : ServerState) (c : ConnId) (m : Message)
    (hconn : alGet c s.conns = some (some .client))
    (hagent : s.agentConnection = none)
    (htype : m.type = some "command") :
    step cfg s (.message c (some m)) =
      (s, [.send c (.response m.id (some false) none (some "No agent connected"))]) := by
  simp [step, hconn, handleClientMessage, htype, hagent]

/-- Witness for `noAgent_reply` at a concrete state and command. -/
theorem noAgent_reply_witness :
    step cfgOpen stateClientOnly (.message 1 (some (msgCommand "1" "navigate"))) =
      (stateClientOnly,
       [.send 1 (.response (some "1") (some false) none (some "No agent connected"))]) :=
  noAgent_reply cfgOpen stateClientOnly 1 (msgCommand "1" "navigate")
    (by decide) (by decide) rfl

/-! ### Claim C5 -/

/-- C5: an agent response whose correlation id has no pending record is
silently dropped — the state (all other pending records and timers included)
is unchanged and no message is sent to anyone. -/
theorem unknown_response_dropped (cfg : Config) (s : ServerState) (a : ConnId)
    (m : Message) (ag : AgentConn) (i : String)
    (hconn : alGet a s.conns = some (some .agent))
    (hagent : s.agentConnection = some ag)
    (hsock : ag.socket = a)
    (htype : m.type = some "response")
    (hid : m.id = some i)
    (hmiss : alGet i s.pendingCommands = none) :
    step cfg s (.message a (some m)) = (s, []) := by
  simp [step, hconn, handleAgentMessage, hagent, hsock, htype, hid, hmiss]

/-- Witness for `unknown_response_dropped`: a response for the never-issued
id `"zzz"` at a concrete state with agent and client connected. -/
theorem unknown_response_dropped_witness :
    step cfgOpen stateAC (.message 0 (some (msgResponse "zzz"))) = (stateAC, []) :=
  unknown_response_dropped cfgOpen stateAC 0 (msgResponse "zzz")
    ⟨0, ⟨"default-agent", "supextension-agent", "1.0.0"⟩⟩ "zzz"
    (by decide) (by decide) rfl rfl rfl (by decide)

/-! ### Claim C2 (corrected) -/

/-- Counterexample to C2: a command with a method name far outside any
recognized vocabulary is forwarded verbatim to the agent, and the client
receives no local rejection — the run's full output is the two readiness
frames, the status frame, and the forwarded command. -/
theorem method_not_validated_counterexample :
    (run cfgOpen initState
      [.connect 0 none, .message 0 (some msgIdentifyAgent),
       .connect 1 none, .message 1 (some msgIdentifyClient),
       .message 1 (some (msgCommand "9" "frobnicate-the-widgets"))]).2 =
      [.send 0 (.ready "agent" (some "default-agent")),
       .send 1 (.ready "client" none),
       .send 1 (.agentStatus "online"
         (some ⟨"default-agent", "supextension-agent", "1.0.0"⟩)),
       .send 0 (.command "9" (some "frobnicate-the-widgets") "\x7b\x7d")] := by
  decide

/-- C2 as amended: the router performs no method validation.  Any command
from an identified client while an agent is connected — whatever its method
name — creates a pending record and is forwarded to the agent as the sole
emitted action; no rejection is sent to the client. -/
theorem command_forwarded_any_method (cfg : Config) (s : ServerState) (c : ConnId)
    (m : Message) (ag : AgentConn)
    (hconn : alGet c s.conns = some (some .client))
    (hagent : s.agentConnection = some ag)
    (htype : m.type = some "command") :
    step cfg s (.message c (some m)) =
      ({ s with
           requestCounter :=
             match m.id with | some _ => s.requestCounter | none => s.requestCounter + 1,
           pendingCommands := alSet (effId s m) ⟨c, s.nextTimer⟩ s.pendingCommands,
           timers := (s.nextTimer, effId s m) :: s.timers,
           nextTimer := s.nextTimer + 1 },
       [.send ag.socket (.command (effId s m) m.method (m.params.getD "\x7b\x7d"))]) := by
  simp [step, hconn, handleClientMessage, htype, hagent]

/-- Witness for `command_forwarded_any_method` at a concrete state and an
unrecognized method name. -/
theorem command_forwarded_any_method_witness :
    step cfgOpen stateAC (.message 1 (some (msgCommand "7" "no-such-method"))) =
      ({ stateAC with
           requestCounter :=
             match (msgCommand "7" "no-such-method").id with
             | some _ => stateAC.requestCounter
             | none => stateAC.requestCounter + 1,
           pendingCommands :=
             alSet (effId stateAC (msgCommand "7" "no-such-method"))
               ⟨1, stateAC.nextTimer⟩ stateAC.pendingCommands,
           timers :=
             (stateAC.nextTimer, effId stateAC (msgCommand "7" "no-such-method"))
               :: stateAC.timers,
           nextTimer := stateAC.nextTimer + 1 },
       [.send 0 (.command (effId stateAC (msgCommand "7" "no-such-method"))
         (msgCommand "7" "no-such-method").method
         ((msgCommand "7" "no-such-method").params.getD "\x7b\x7d"))]) :=
  command_forwarded_any_method cfgOpen stateAC 1 (msgCommand "7" "no-such-method")
    ⟨0, ⟨"default-agent", "supextension-agent", "1.0.0"⟩⟩
    (by decide) (by decide) rfl

/-! ### Claim C7 (corrected) -/

/-- Counterexample to C7: malformed input draws an error frame but the server
does not close the connection — no close action is emitted and the connection
is still registered afterwards. -/
theorem malformed_keeps_connection_counterexample :
    (run cfgOpen initState [.connect 0 none, .message 0 none]).2 =
        [.send 0 (.errorMsg "Invalid message format")]
      ∧ closesConn 0 (run cfgOpen initState [.connect 0 none, .message 0 none]).2 = false
      ∧ alGet 0 (run cfgOpen initState [.connect 0 none, .message 0 none]).1.conns
          = some none := by
  decide

/-- C7 as amended: malformed input is answered with an error frame but the
connection stays open (no close action, state unchanged); a first message
that is not an identify declaration, or an identify with an unknown role,
draws an error frame followed by a server-initiated close. -/
theorem protocol_error_paths (cfg : Config) (s : ServerState) (c : ConnId)
    (m : Message) (r : Option Role) :
    (alGet c s.conns = some r →
      step cfg s (.message c none) = (s, [.send c (.errorMsg "Invalid message format")]))
    ∧ (alGet c s.conns = some none → m.type ≠ some "identify" →
      step cfg s (.message c (some m)) =
        (s, [.send c (.errorMsg "Identification required"),
             .closeConn c 1008 "Identify first"]))
    ∧ (alGet c s.conns = some none → m.type = some "identify" →
        m.role ≠ some "agent" → m.role ≠ some "client" →
      step cfg s (.message c (some m)) =
        (s, [.send c (.errorMsg "Unknown role"), .closeConn c 1008 "Unknown role"])) := by
  refine ⟨fun h => ?_, fun h h2 => ?_, fun h h2 h3 h4 => ?_⟩
  · simp [step, h]
  · simp [step, h, handleIdentify, h2]
  · simp [step, h, handleIdentify, h2, h3, h4]

/-- Witness for `protocol_error_paths`: all three paths at concrete inputs on
a freshly opened connection. -/
theorem protocol_error_paths_witness :
    (step cfgOpen ((run cfgOpen initState [.connect 0 none]).1) (.message 0 none) =
      ((run cfgOpen initState [.connect 0 none]).1,
       [.send 0 (.errorMsg "Invalid message format")]))
    ∧ (step cfgOpen ((run cfgOpen initState [.connect 0 none]).1)
        (.message 0 (some (msgCommand "1" "navigate"))) =
      ((run cfgOpen initState [.connect 0 none]).1,
       [.send 0 (.errorMsg "Identification required"),
        .closeConn 0 1008 "Identify first"]))
    ∧ (step cfgOpen ((run cfgOpen initState [.connect 0 none]).1)
        (.message 0 (some { type := some "identify", role := some "observer" })) =
      ((run cfgOpen initState [.connect 0 none]).1,
       [.send 0 (.errorMsg "Unknown role"), .closeConn 0 1008 "Unknown role"])) :=
  ⟨(protocol_error_paths cfgOpen _ 0 (msgCommand "1" "navigate") none).1 (by decide),
   (protocol_error_paths cfgOpen _ 0 (msgCommand "1" "navigate") none).2.1
     (by decide) (by decide),
   (protocol_error_paths cfgOpen _ 0
       { type := some "identify", role := some "observer" } none).2.2
     (by decide) rfl (by decide) (by decide)⟩

/-! ### Claim C6 -/

/-- C6: when an identified client closes, it is removed from the client set,
its own pending records are discarded and their timers cleared, nothing is
sent to anyone, and other clients' pending records, their timers and the
agent slot are untouched. -/
theorem clientClose_cleanup (cfg : Config) (s : ServerState) (c : ConnId)
    (hconn : alGet c s.conns = some (some .client))
    (hk : pendingKeysNodup s)
    (hnd : timerKeysNodup s)
    (hlive : pendingTimersLive s) :
    (step cfg s (.close c)).2 = []
    ∧ (step cfg s (.close c)).1.clients = s.clients.filter (fun ci => ci.socket ≠ c)
    ∧ (step cfg s (.close c)).1.pendingCommands =
        s.pendingCommands.filter (fun q => q.2.client ≠ c)
    ∧ (step cfg s (.close c)).1.agentConnection = s.agentConnection
    ∧ (∀ q ∈ s.pendingCommands, q.2.client = c →
        alGet q.2.timeout (step cfg s (.close c)).1.timers = none)
    ∧ (∀ q ∈ s.pendingCommands, q.2.client ≠ c →
        alGet q.2.timeout (step cfg s (.close c)).1.timers
          = alGet q.2.timeout s.timers) := by
  have hstep : step cfg s (.close c) =
      ({ s with
           conns := alDelete c s.conns,
           pendingCommands := s.pendingCommands.filter (fun q => q.2.client ≠ c),
           clients := s.clients.filter (fun ci => ci.socket ≠ c),
           timers := s.pendingCommands.foldl
             (fun ts q => if q.2.client = c then alDelete q.2.timeout ts else ts)
             s.timers }, []) := by
    simp [step, handleClose, hconn, cleanupPendingForClient]
  rw [hstep]
  refine ⟨rfl, rfl, rfl, rfl, fun q hq hc => ?_, fun q hq hc => ?_⟩
  · exact cfold_hit c s.pendingCommands s.timers hnd hq hc
  · apply cfold_miss
    intro r hr hrc hteq
    have h1 : alGet r.2.timeout s.timers = some r.1 := hlive r hr
    have h2 : alGet q.2.timeout s.timers = some q.1 := hlive q hq
    rw [hteq] at h1
    rw [h1] at h2
    injection h2 with hkey
    have hv1 : alGet r.1 s.pendingCommands = some r.2 := alGet_of_mem hk hr
    have hv2 : alGet q.1 s.pendingCommands = some q.2 := alGet_of_mem hk hq
    rw [hkey] at hv1
    rw [hv1] at hv2
    injection hv2 with hval
    exact hc (hval ▸ hrc)

/-- Witness for `clientClose_cleanup`: client 1 closes while commands `"a"`
(its own) and `"b"` (client 2's) are pending. -/
theorem clientClose_cleanup_witness :
    (step cfgOpen stateTwoPending (.close 1)).2 = []
    ∧ (step cfgOpen stateTwoPending (.close 1)).1.clients =
        stateTwoPending.clients.filter (fun ci => ci.socket ≠ 1)
    ∧ (step cfgOpen stateTwoPending (.close 1)).1.pendingCommands =
        stateTwoPending.pendingCommands.filter (fun q => q.2.client ≠ 1)
    ∧ (step cfgOpen stateTwoPending (.close 1)).1.agentConnection =
        stateTwoPending.agentConnection
    ∧ (∀ q ∈ stateTwoPending.pendingCommands, q.2.client = 1 →
        alGet q.2.timeout (step cfgOpen stateTwoPending (.close 1)).1.timers = none)
    ∧ (∀ q ∈ stateTwoPending.pendingCommands, q.2.client ≠ 1 →
        alGet q.2.timeout (step cfgOpen stateTwoPending (.close 1)).1.timers
          = alGet q.2.timeout stateTwoPending.timers) :=
  clientClose_cleanup cfgOpen stateTwoPending 1
    (by decide) (by decide) (by decide) (by decide)

/-! ### Claim C4 -/

/-- C4: when the live agent's socket closes, the agent slot is cleared, every
pending command's owner receives a `success:false` / `"Agent disconnected"`
response and its timer is cleared, the pending registry is emptied, and every
identified client (all assumed still open) is sent agent-status `"offline"`. -/
theorem agentClose_failsAll (cfg : Config) (s : ServerState) (a : ConnId)
    (info : AgentInfo)
    (hconn : alGet a s.conns = some (some .agent))
    (hagent : s.agentConnection = some ⟨a, info⟩)
    (hnd : timerKeysNodup s)
    (hopen : ∀ ci ∈ s.clients, (alGet ci.socket (alDelete a s.conns)).isSome = true) :
    (step cfg s (.close a)).1.agentConnection = none
    ∧ (step cfg s (.close a)).1.pendingCommands = []
    ∧ (step cfg s (.close a)).2 =
        s.pendingCommands.map (fun q => Action.send q.2.client
          (.response (some q.1) (some false) none (some "Agent disconnected")))
        ++ s.clients.map (fun ci => Action.send ci.socket (.agentStatus "offline" none))
    ∧ ∀ q ∈ s.pendingCommands, alGet q.2.timeout (step cfg s (.close a)).1.timers = none := by
  have hstep : step cfg s (.close a) =
      ({ s with
           conns := alDelete a s.conns,
           agentConnection := none,
           pendingCommands := [],
           timers := s.pendingCommands.foldl
             (fun ts q => alDelete q.2.timeout ts) s.timers },
       s.pendingCommands.map (fun q => Action.send q.2.client
         (.response (some q.1) (some false) none (some "Agent disconnected")))
       ++ broadcast
           { s with
               conns := alDelete a s.conns,
               agentConnection := none,
               pendingCommands := [],
               timers := s.pendingCommands.foldl
                 (fun ts q => alDelete q.2.timeout ts) s.timers }
           (.agentStatus "offline" none)) := by
    simp [step, handleClose, hconn, hagent, failPendingCommands]
  rw [hstep]
  refine ⟨rfl, rfl, ?_, fun q hq => ffold_hit s.pendingCommands s.timers hnd hq⟩
  have hfilter :
      (s.clients.filter (fun ci => (alGet ci.socket (alDelete a s.conns)).isSome))
        = s.clients :=
    List.filter_eq_self.mpr hopen
  simp [broadcast, hfilter]

/-- Witness for `agentClose_failsAll`: the agent closes while commands `"a"`
(client 1) and `"b"` (client 2) are pending. -/
theorem agentClose_failsAll_witness :
    (step cfgOpen stateTwoPending (.close 0)).1.agentConnection = none
    ∧ (step cfgOpen stateTwoPending (.close 0)).1.pendingCommands = []
    ∧ (step cfgOpen stateTwoPending (.close 0)).2 =
        stateTwoPending.pendingCommands.map (fun q => Action.send q.2.client
          (.response (some q.1) (some false) none (some "Agent disconnected")))
        ++ stateTwoPending.clients.map
            (fun ci => Action.send ci.socket (.agentStatus "offline" none))
    ∧ ∀ q ∈ stateTwoPending.pendingCommands,
        alGet q.2.timeout (step cfgOpen stateTwoPending (.close 0)).1.timers = none :=
  agentClose_failsAll cfgOpen stateTwoPending 0
    ⟨"default-agent", "supextension-agent", "1.0.0"⟩
    (by decide) (by decide) (by decide) (by decide)

/-! ### Claim C8 -/

theorem closesConn_broadcast (d : ConnId) (s : ServerState) (msg : OutMsg) :
    closesConn d (broadcast s msg) = false := by
  simp only [closesConn, broadcast]
  refine List.any_eq_false.mpr ?_
  intro ci hci
  rcases List.mem_map.mp hci with ⟨cj, hcj, rfl⟩
  simp

theorem closesConn_cons_send (d e : ConnId) (msg : OutMsg) (acts : List Action) :
    closesConn d (Action.send e msg :: acts) = closesConn d acts := by
  simp [closesConn]

/-- C8: a second connection identifying as agent evicts the previous agent
from the slot without closing its socket; the newcomer gets `ready` and an
`"online"` status is broadcast, pending commands are untouched; and when the
evicted agent's socket later closes, the slot, the pending registry, the
client set stay as they were and nothing is sent or broadcast. -/
theorem agent_replacement (cfg : Config) (s : ServerState) (a b : ConnId)
    (m : Message) (ag : AgentConn)
    (hagent : s.agentConnection = some ag)
    (hsock : ag.socket = a)
    (hconnA : alGet a s.conns = some (some .agent))
    (hconnB : alGet b s.conns = some none)
    (htype : m.type = some "identify")
    (hrole : m.role = some "agent")
    (hauth : authorizeAgent cfg m.secret = true) :
    (step cfg s (.message b (some m))).1.agentConnection =
        some ⟨b, ⟨m.agentId.getD "default-agent", m.name.getD "supextension-agent",
          m.version.getD "1.0.0"⟩⟩
    ∧ (step cfg s (.message b (some m))).1.pendingCommands = s.pendingCommands
    ∧ (step cfg s (.message b (some m))).2 =
        .send b (.ready "agent" (some (m.agentId.getD "default-agent"))) ::
          broadcast (step cfg s (.message b (some m))).1
            (.agentStatus "online"
              (some ⟨m.agentId.getD "default-agent", m.name.getD "supextension-agent",
                m.version.getD "1.0.0"⟩))
    ∧ closesConn a (step cfg s (.message b (some m))).2 = false
    ∧ (step cfg (step cfg s (.message b (some m))).1 (.close a)).1.agentConnection =
        (step cfg s (.message b (some m))).1.agentConnection
    ∧ (step cfg (step cfg s (.message b (some m))).1 (.close a)).1.pendingCommands =
        (step cfg s (.message b (some m))).1.pendingCommands
    ∧ (step cfg (step cfg s (.message b (some m))).1 (.close a)).1.clients =
        (step cfg s (.message b (some m))).1.clients
    ∧ (step cfg (step cfg s (.message b (some m))).1 (.close a)).2 = [] := by
  have hab : a ≠ b := by
    intro h
    rw [h, hconnB] at hconnA
    cases hconnA
  have hstep : step cfg s (.message b (some m)) =
      ({ s with conns := alSet b (some .agent) s.conns,
                agentConnection := some ⟨b,
                  ⟨m.agentId.getD "default-agent", m.name.getD "supextension-agent",
                    m.version.getD "1.0.0"⟩⟩ },
       .send b (.ready "agent" (some (m.agentId.getD "default-agent"))) ::
         broadcast
           { s with conns := alSet b (some .agent) s.conns,
                    agentConnection := some ⟨b,
                      ⟨m.agentId.getD "default-agent", m.name.getD "supextension-agent",
                        m.version.getD "1.0.0"⟩⟩ }
           (.agentStatus "online"
             (some ⟨m.agentId.getD "default-agent", m.name.getD "supextension-agent",
               m.version.getD "1.0.0"⟩))) := by
    simp [step, hconnB, handleIdentify, htype, hrole, hauth]
  have hconnA1 : alGet a (alSet b (some Role.agent) s.conns) = some (some .agent) := by
    rw [alGet_alSet_ne _ _ hab, hconnA]
  have hclose : step cfg
      ({ s with conns := alSet b (some .agent) s.conns,
                agentConnection := some ⟨b,
                  ⟨m.agentId.getD "default-agent", m.name.getD "supextension-agent",
                    m.version.getD "1.0.0"⟩⟩ } : ServerState) (.close a) =
      ({ s with conns := alDelete a (alSet b (some .agent) s.conns),
                agentConnection := some ⟨b,
                  ⟨m.agentId.getD "default-agent", m.name.getD "supextension-agent",
                    m.version.getD "1.0.0"⟩⟩ }, []) := by
    simp [step, handleClose, hconnA1, Ne.symm hab]
  rw [hstep]
  refine ⟨rfl, rfl, rfl, ?_, ?_⟩
  · rw [closesConn_cons_send, closesConn_broadcast]
  · rw [hclose]
    exact ⟨rfl, rfl, rfl, rfl⟩

/-- Witness for `agent_replacement`: connection 3 identifies as agent while
agent 0 holds the slot and command `"a"` is pending; then socket 0 closes. -/
theorem agent_replacement_witness :
    (step cfgOpen statePendingNewConn (.message 3 (some msgIdentifyAgent))).1.agentConnection =
        some ⟨3, ⟨"default-agent", "supextension-agent", "1.0.0"⟩⟩
    ∧ (step cfgOpen statePendingNewConn (.message 3 (some msgIdentifyAgent))).1.pendingCommands =
        statePendingNewConn.pendingCommands
    ∧ (step cfgOpen statePendingNewConn (.message 3 (some msgIdentifyAgent))).2 =
        .send 3 (.ready "agent" (some "default-agent")) ::
          broadcast (step cfgOpen statePendingNewConn (.message 3 (some msgIdentifyAgent))).1
            (.agentStatus "online"
              (some ⟨"default-agent", "supextension-agent", "1.0.0"⟩))
    ∧ closesConn 0 (step cfgOpen statePendingNewConn (.message 3 (some msgIdentifyAgent))).2 = false
    ∧ (step cfgOpen
        (step cfgOpen statePendingNewConn (.message 3 (some msgIdentifyAgent))).1
        (.close 0)).1.agentConnection =
        (step cfgOpen statePendingNewConn (.message 3 (some msgIdentifyAgent))).1.agentConnection
    ∧ (step cfgOpen
        (step cfgOpen statePendingNewConn (.message 3 (some msgIdentifyAgent))).1
        (.close 0)).1.pendingCommands =
        (step cfgOpen statePendingNewConn (.message 3 (some msgIdentifyAgent))).1.pendingCommands
    ∧ (step cfgOpen
        (step cfgOpen statePendingNewConn (.message 3 (some msgIdentifyAgent))).1
        (.close 0)).1.clients =
        (step cfgOpen statePendingNewConn (.message 3 (some msgIdentifyAgent))).1.clients
    ∧ (step cfgOpen
        (step cfgOpen statePendingNewConn (.message 3 (some msgIdentifyAgent))).1
        (.close 0)).2 = [] :=
  agent_replacement cfgOpen statePendingNewConn 0 3 msgIdentifyAgent
    ⟨0, ⟨"default-agent", "supextension-agent", "1.0.0"⟩⟩
    (by decide) rfl (by decide) (by decide) rfl rfl rfl

/-! ### Claim C10 -/

theorem authorizeAgent_congr {cfg1 cfg2 : Config}
    (h : cfg1.agentSecret = cfg2.agentSecret) :
    authorizeAgent cfg1 = authorizeAgent cfg2 := by
  funext x
  unfold authorizeAgent
  rw [h]

theorem authorizeClient_congr {cfg1 cfg2 : Config}
    (h : cfg1.apiKey = cfg2.apiKey) :
    authorizeClient cfg1 = authorizeClient cfg2 := by
  funext x
  unfold authorizeClient
  rw [h]

theorem step_origin_config_irrelevant (cfg1 cfg2 : Config)
    (h1 : cfg1.apiKey = cfg2.apiKey) (h2 : cfg1.agentSecret = cfg2.agentSecret)
    (f : Option String → Option String) (s : ServerState) (e : Event) :
    step cfg1 s (mapOrigin f e) = step cfg2 s e := by
  have hIdent : handleIdentify cfg1 = handleIdentify cfg2 := by
    funext s c m
    unfold handleIdentify
    rw [authorizeAgent_congr h2, authorizeClient_congr h1]
  cases e with
  | connect c o => rfl
  | message c raw => simp [step, mapOrigin, hIdent]
  | close c => rfl
  | timerFire t => rfl

/-- C10: the allowed-origins configuration and every connection's `Origin`
header are behaviorally inert — runs under configurations that agree on the
API key and agent secret, over traces differing arbitrarily in origins,
produce identical states and identical outputs (`isOriginAllowed` is never
consulted on the connection path). -/
theorem origin_allowlist_irrelevant (cfg1 cfg2 : Config)
    (h1 : cfg1.apiKey = cfg2.apiKey) (h2 : cfg1.agentSecret = cfg2.agentSecret)
    (f : Option String → Option String) (s : ServerState) (evs : List Event) :
    run cfg1 s (mapOrigins f evs) = run cfg2 s evs := by
  induction evs generalizing s with
  | nil => rfl
  | cons e evs ih =>
    simp only [mapOrigins, List.map_cons, run] at ih ⊢
    rw [step_origin_config_irrelevant cfg1 cfg2 h1 h2 f s e, ih]

/-- Witness for `origin_allowlist_irrelevant`: an empty allow-list and a
hostile origin versus the permissive default — identical run. -/
theorem origin_allowlist_irrelevant_witness :
    run cfgNoOrigins initState
        (mapOrigins (fun _ => some "http://evil.example")
          [.connect 0 none, .message 0 (some msgIdentifyAgent),
           .connect 1 (some "http://good.example"),
           .message 1 (some msgIdentifyClient),
           .message 1 (some (msgCommand "1" "navigate"))]) =
      run cfgOpen initState
        [.connect 0 none, .message 0 (some msgIdentifyAgent),
         .connect 1 (some "http://good.example"),
         .message 1 (some msgIdentifyClient),
         .message 1 (some (msgCommand "1" "navigate"))] :=
  origin_allowlist_irrelevant cfgNoOrigins cfgOpen rfl rfl
    (fun _ => some "http://evil.example") initState _

/-! ### Preservation of the registry/timer invariant -/

theorem GInv_eta {s s' : ServerState} (h : GInv s)
    (hp : s'.pendingCommands = s.pendingCommands) (ht : s'.timers = s.timers)
    (hn : s'.nextTimer = s.nextTimer) : GInv s' := by
  unfold GInv pendingKeysNodup timerKeysNodup timersFresh pendingTimersLive at h ⊢
  rw [hp, ht, hn]
  exact h

theorem pending_timeout_inj {s : ServerState} (hk : pendingKeysNodup s)
    (hlive : pendingTimersLive s) {q r : String × Pending}
    (hq : q ∈ s.pendingCommands) (hr : r ∈ s.pendingCommands)
    (h : q.2.timeout = r.2.timeout) : q = r := by
  have h1 := hlive q hq
  have h2 := hlive r hr
  rw [h] at h1
  rw [h1] at h2
  injection h2 with hkey
  have hv1 : alGet q.1 s.pendingCommands = some q.2 := alGet_of_mem hk hq
  have hv2 : alGet r.1 s.pendingCommands = some r.2 := alGet_of_mem hk hr
  rw [← hkey] at hv2
  rw [hv1] at hv2
  injection hv2 with hval
  exact Prod.ext hkey hval

theorem timeout_lt_next {s : ServerState} (h : GInv s) {q : String × Pending}
    (hq : q ∈ s.pendingCommands) : q.2.timeout < s.nextTimer := by
  obtain ⟨-, -, hfresh, hlive⟩ := h
  exact hfresh _ (mem_of_alGet (hlive q hq))

theorem GInv_extend {s : ServerState} (h : GInv s) (X : String) (c : ConnId)
    (co : Nat) :
    GInv { s with requestCounter := co,
                  pendingCommands := alSet X ⟨c, s.nextTimer⟩ s.pendingCommands,
                  timers := (s.nextTimer, X) :: s.timers,
                  nextTimer := s.nextTimer + 1 } := by
  obtain ⟨hk, hnd, hfresh, hlive⟩ := h
  refine ⟨nodup_keys_alSet hk, ?_, ?_, ?_⟩
  · simp only [timerKeysNodup, List.map_cons, List.nodup_cons]
    refine ⟨?_, hnd⟩
    intro hmem
    rcases List.mem_map.mp hmem with ⟨p, hp, hfst⟩
    exact absurd (hfst ▸ hfresh p hp) (lt_irrefl _)
  · intro p hp
    rcases List.mem_cons.mp hp with h1 | h1
    · simp [h1]
    · exact Nat.lt_succ_of_lt (hfresh p h1)
  · intro q hq
    rcases mem_alSet hq with h1 | h1
    · subst h1
      simp [alGet]
    · have hlt : q.2.timeout < s.nextTimer := hfresh _ (mem_of_alGet (hlive q h1))
      show alGet q.2.timeout ((s.nextTimer, X) :: s.timers) = some q.1
      rw [show alGet q.2.timeout ((s.nextTimer, X) :: s.timers)
          = alGet q.2.timeout s.timers by
        simp [alGet, Nat.ne_of_gt hlt]]
      exact hlive q h1

theorem GInv_resolve {s : ServerState} (h : GInv s) {i : String} {p : Pending}
    (hp : alGet i s.pendingCommands = some p) :
    GInv { s with timers := alDelete p.timeout s.timers,
                  pendingCommands := alDelete i s.pendingCommands } := by
  obtain ⟨hk, hnd, hfresh, hlive⟩ := h
  refine ⟨nodup_keys_alDelete hk, nodup_keys_alDelete hnd,
    fun q hq => hfresh q (mem_alDelete hq), ?_⟩
  intro q hq
  have hqP : q ∈ s.pendingCommands := mem_alDelete hq
  have hqne : q.1 ≠ i := ne_of_mem_alDelete_nodup hk hq
  have hlq := hlive q hqP
  have hlp : alGet p.timeout s.timers = some i := hlive (i, p) (mem_of_alGet hp)
  have htne : q.2.timeout ≠ p.timeout := by
    intro heq
    rw [heq, hlp] at hlq
    injection hlq with hlq
    exact hqne hlq.symm
  show alGet q.2.timeout (alDelete p.timeout s.timers) = some q.1
  rw [alGet_alDelete_ne _ htne]
  exact hlq

theorem GInv_fire_hit {s : ServerState} (h : GInv s) {t : TimerId} {cmdId : String}
    (ht : alGet t s.timers = some cmdId) {p : Pending}
    (hp : alGet cmdId s.pendingCommands = some p) :
    GInv { s with timers := alDelete t s.timers,
                  pendingCommands := alDelete cmdId s.pendingCommands } := by
  obtain ⟨hk, hnd, hfresh, hlive⟩ := h
  refine ⟨nodup_keys_alDelete hk, nodup_keys_alDelete hnd,
    fun q hq => hfresh q (mem_alDelete hq), ?_⟩
  intro q hq
  have hqP : q ∈ s.pendingCommands := mem_alDelete hq
  have hqne : q.1 ≠ cmdId := ne_of_mem_alDelete_nodup hk hq
  have hlq := hlive q hqP
  have htne : q.2.timeout ≠ t := by
    intro heq
    rw [heq, ht] at hlq
    injection hlq with hlq
    exact hqne hlq.symm
  show alGet q.2.timeout (alDelete t s.timers) = some q.1
  rw [alGet_alDelete_ne _ htne]
  exact hlq

theorem GInv_fire_miss {s : ServerState} (h : GInv s) {t : TimerId} {cmdId : String}
    (ht : alGet t s.timers = some cmdId)
    (hp : alGet cmdId s.pendingCommands = none) :
    GInv { s with timers := alDelete t s.timers } := by
  obtain ⟨hk, hnd, hfresh, hlive⟩ := h
  refine ⟨hk, nodup_keys_alDelete hnd,
    fun q hq => hfresh q (mem_alDelete hq), ?_⟩
  intro q hq
  have hlq := hlive q hq
  have htne : q.2.timeout ≠ t := by
    intro heq
    rw [heq, ht] at hlq
    injection hlq with hlq
    exact forall_ne_of_alGet_eq_none hp q hq hlq.symm
  show alGet q.2.timeout (alDelete t s.timers) = some q.1
  rw [alGet_alDelete_ne _ htne]
  exact hlq

theorem GInv_failAll {s : ServerState} (h : GInv s) :
    GInv { s with
             agentConnection := none,
             pendingCommands := [],
             timers := s.pendingCommands.foldl
               (fun ts q => alDelete q.2.timeout ts) s.timers } := by
  obtain ⟨hk, hnd, hfresh, hlive⟩ := h
  refine ⟨by simp [pendingKeysNodup], ffold_nodup _ _ hnd,
    fun q hq => hfresh q (ffold_mem _ _ hq), ?_⟩
  intro q hq
  cases hq

theorem GInv_cleanup {s : ServerState} (h : GInv s) (c : ConnId) :
    GInv { s with
             pendingCommands := s.pendingCommands.filter (fun q => q.2.client ≠ c),
             timers := s.pendingCommands.foldl
               (fun ts q => if q.2.client = c then alDelete q.2.timeout ts else ts)
               s.timers } := by
  obtain ⟨hk, hnd, hfresh, hlive⟩ := h
  refine ⟨?_, cfold_nodup c _ _ hnd, fun q hq => hfresh q (cfold_mem c _ _ hq), ?_⟩
  · exact hk.sublist ((List.filter_sublist _).map Prod.fst)
  · intro q hq
    have hmem := List.mem_filter.mp hq
    have hqc : q.2.client ≠ c := by simpa using hmem.2
    show alGet q.2.timeout (s.pendingCommands.foldl
      (fun ts r => if r.2.client = c then alDelete r.2.timeout ts else ts) s.timers)
        = some q.1
    rw [cfold_miss]
    · exact hlive q hmem.1
    · intro r hr hrc hteq
      have := pending_timeout_inj hk hlive hr hmem.1 hteq
      rw [this] at hrc
      exact hqc hrc

theorem GInv_handleIdentify (cfg : Config) {s : ServerState} (c : ConnId)
    (m : Message) (h : GInv s) : GInv (handleIdentify cfg s c m).1 := by
  unfold handleIdentify
  split_ifs <;> exact GInv_eta h rfl rfl rfl

theorem GInv_handleClientMessage {s : ServerState} (c : ConnId) (m : Message)
    (h : GInv s) : GInv (handleClientMessage s c m).1 := by
  unfold handleClientMessage
  split_ifs with h1
  · exact GInv_eta h rfl rfl rfl
  · cases hag : s.agentConnection with
    | none => exact GInv_eta h rfl rfl rfl
    | some ag =>
      exact GInv_extend h (effId s m) c
        (match m.id with | some _ => s.requestCounter | none => s.requestCounter + 1)

theorem GInv_handleAgentMessage {s : ServerState} (c : ConnId) (m : Message)
    (h : GInv s) : GInv (handleAgentMessage s c m).1 := by
  unfold handleAgentMessage
  split_ifs with h1 h2 h3
  · exact GInv_eta h rfl rfl rfl
  · cases hid : m.id with
    | none => exact GInv_eta h rfl rfl rfl
    | some i =>
      simp only []
      cases hp : alGet i s.pendingCommands with
      | none => exact GInv_eta h rfl rfl rfl
      | some p =>
        simp only []
        exact GInv_resolve h hp
  · exact GInv_eta h rfl rfl rfl
  · exact GInv_eta h rfl rfl rfl

theorem GInv_fireTimer {s : ServerState} (t : TimerId) (h : GInv s) :
    GInv (fireTimer s t).1 := by
  unfold fireTimer
  cases ht : alGet t s.timers with
  | none => exact GInv_eta h rfl rfl rfl
  | some cmdId =>
    simp only []
    cases hp : alGet cmdId s.pendingCommands with
    | none =>
      simp only []
      exact GInv_fire_miss h ht hp
    | some p =>
      simp only []
      exact GInv_fire_hit h ht hp

theorem GInv_handleClose {s : ServerState} (c : ConnId) (h : GInv s) :
    GInv (handleClose s c).1 := by
  unfold handleClose
  cases hc : alGet c s.conns with
  | none => exact GInv_eta h rfl rfl rfl
  | some r =>
    simp only []
    match r with
    | some .agent =>
      simp only []
      split_ifs with hguard
      · unfold failPendingCommands
        simp only []
        exact GInv_eta (GInv_failAll h) rfl rfl rfl
      · exact GInv_eta h rfl rfl rfl
    | some .client =>
      simp only []
      unfold cleanupPendingForClient
      exact GInv_eta (GInv_cleanup h c) rfl rfl rfl
    | none => exact GInv_eta h rfl rfl rfl

theorem GInv_step (cfg : Config) {s : ServerState} (e : Event) (h : GInv s) :
    GInv (step cfg s e).1 := by
  cases e with
  | connect c o => exact GInv_eta h rfl rfl rfl
  | close c => exact GInv_handleClose c h
  | timerFire t => exact GInv_fireTimer t h
  | message c raw =>
    simp only [step]
    cases hc : alGet c s.conns with
    | none => exact GInv_eta h rfl rfl rfl
    | some r =>
      simp only []
      cases raw with
      | none => exact GInv_eta h rfl rfl rfl
      | some m =>
        simp only []
        match r with
        | none => exact GInv_handleIdentify cfg c m h
        | some .agent => exact GInv_handleAgentMessage c m h
        | some .client => exact GInv_handleClientMessage c m h

/-! ### Counting terminal responses -/

theorem termCount_append (c : ConnId) (X : String) (l1 l2 : List Action) :
    termCount c X (l1 ++ l2) = termCount c X l1 + termCount c X l2 := by
  simp [termCount, List.filter_append]

theorem termCount_zero (c : ConnId) (X : String) {acts : List Action}
    (h : ∀ a ∈ acts, isTerminal c X a = false) : termCount c X acts = 0 := by
  unfold termCount
  rw [List.filter_eq_nil_iff.mpr fun a ha => by simp [h a ha]]
  rfl

theorem termCount_cons_false (c : ConnId) (X : String) {a : Action}
    (l : List Action) (h : isTerminal c X a = false) :
    termCount c X (a :: l) = termCount c X l := by
  simp [termCount, h]

theorem termCount_broadcast (c : ConnId) (X : String) (s : ServerState)
    (msg : OutMsg) (h : ∀ d, isTerminal c X (.send d msg) = false) :
    termCount c X (broadcast s msg) = 0 := by
  apply termCount_zero
  intro a ha
  rcases List.mem_map.mp ha with ⟨ci, hci, rfl⟩
  exact h ci.socket

/-! ### Facts about the identification handler -/

theorem handleIdentify_state (cfg : Config) (s : ServerState) (c : ConnId)
    (m : Message) :
    (handleIdentify cfg s c m).1.pendingCommands = s.pendingCommands
    ∧ (handleIdentify cfg s c m).1.timers = s.timers
    ∧ (handleIdentify cfg s c m).1.nextTimer = s.nextTimer
    ∧ ((handleIdentify cfg s c m).1.agentConnection = s.agentConnection
       ∨ (handleIdentify cfg s c m).1.agentConnection.isSome = true) := by
  unfold handleIdentify
  split_ifs <;> simp

theorem handleIdentify_termCount (cfg : Config) (s : ServerState) (c : ConnId)
    (m : Message) (c' : ConnId) (X : String) :
    termCount c' X (handleIdentify cfg s c m).2 = 0 := by
  unfold handleIdentify
  split_ifs <;>
    simp [termCount, isTerminal, broadcast, statusMessage, List.filter_map,
      Function.comp]

/-! ### The command-forwarding step, shared by several claims -/

theorem step_command_eq (cfg : Config) (s : ServerState) (c : ConnId)
    (m : Message) (ag : AgentConn)
    (hconn : alGet c s.conns = some (some .client))
    (hagent : s.agentConnection = some ag)
    (htype : m.type = some "command") :
    step cfg s (.message c (some m)) =
      ({ s with
           requestCounter :=
             match m.id with | some _ => s.requestCounter | none => s.requestCounter + 1,
           pendingCommands := alSet (effId s m) ⟨c, s.nextTimer⟩ s.pendingCommands,
           timers := (s.nextTimer, effId s m) :: s.timers,
           nextTimer := s.nextTimer + 1 },
       [.send ag.socket (.command (effId s m) m.method (m.params.getD "\x7b\x7d"))]) := by
  simp [step, hconn, handleClientMessage, htype, hagent]

/-! ### C9 machinery: the record under a hijacked id never points back -/

theorem stepOwner (cfg : Config) {c1 : ConnId} {X : String} {s : ServerState}
    {e : Event} (h : InvOwner c1 X s) (hok : okOwner c1 X s e = true) :
    InvOwner c1 X (step cfg s e).1 ∧ termCount c1 X (step cfg s e).2 = 0 := by
  obtain ⟨hG, hOwn⟩ := h
  cases e with
  | connect c o => exact ⟨⟨GInv_eta hG rfl rfl rfl, hOwn⟩, rfl⟩
  | timerFire t =>
    simp only [step, fireTimer]
    cases ht : alGet t s.timers with
    | none => exact ⟨⟨hG, hOwn⟩, rfl⟩
    | some cmdId =>
      simp only []
      cases hp : alGet cmdId s.pendingCommands with
      | none => exact ⟨⟨GInv_fire_miss hG ht hp, hOwn⟩, rfl⟩
      | some p =>
        simp only []
        constructor
        · refine ⟨GInv_fire_hit hG ht hp, ?_⟩
          intro q hq
          by_cases hcX : cmdId = X
          · subst hcX
            rw [alGet_alDelete_self hG.1] at hq
            cases hq
          · rw [alGet_alDelete_ne _ fun hh => hcX hh.symm] at hq
            exact hOwn q hq
        · by_cases hcX : cmdId = X
          · subst hcX
            have hpc := hOwn p hp
            simp [termCount, isTerminal, hpc]
          · simp [termCount, isTerminal, hcX]
  | close c =>
    simp only [step, handleClose]
    cases hc : alGet c s.conns with
    | none => exact ⟨⟨hG, hOwn⟩, rfl⟩
    | some r =>
      simp only []
      match r with
      | none => exact ⟨⟨GInv_eta hG rfl rfl rfl, hOwn⟩, rfl⟩
      | some .client =>
        simp only [cleanupPendingForClient]
        refine ⟨⟨GInv_eta (GInv_cleanup hG c) rfl rfl rfl, ?_⟩, rfl⟩
        intro q hq
        have hq' : (X, q) ∈ s.pendingCommands :=
          (List.mem_filter.mp (mem_of_alGet hq)).1
        exact hOwn q (alGet_of_mem hG.1 hq')
      | some .agent =>
        simp only []
        split_ifs with hguard
        · simp only [failPendingCommands]
          constructor
          · refine ⟨GInv_eta (GInv_failAll hG) rfl rfl rfl, ?_⟩
            intro q hq
            simp [alGet] at hq
          · rw [termCount_append]
            have h1 : termCount c1 X (s.pendingCommands.map fun q =>
                Action.send q.2.client (.response (some q.1) (some false) none
                  (some "Agent disconnected"))) = 0 := by
              apply termCount_zero
              intro a ha
              rcases List.mem_map.mp ha with ⟨q, hqmem, rfl⟩
              by_cases hqX : q.1 = X
              · have hget : alGet X s.pendingCommands = some q.2 := by
                  rw [← hqX]
                  exact alGet_of_mem hG.1 hqmem
                have hpc := hOwn q.2 hget
                simp [isTerminal, hpc]
              · simp [isTerminal, hqX]
            rw [h1, termCount_broadcast _ _ _ (.agentStatus "offline" none)
              fun d => rfl]
        · exact ⟨⟨GInv_eta hG rfl rfl rfl, hOwn⟩, rfl⟩
  | message c raw =>
    simp only [step]
    cases hc : alGet c s.conns with
    | none => exact ⟨⟨hG, hOwn⟩, rfl⟩
    | some r =>
      simp only []
      cases raw with
      | none => exact ⟨⟨hG, hOwn⟩, rfl⟩
      | some m =>
        have hcond : ¬(c = c1 ∧ m.type = some "command" ∧ effId s m = X) := by
          intro hh
          simp [okOwner, hh] at hok
        simp only []
        match r with
        | none =>
          obtain ⟨hp, -, -, -⟩ := handleIdentify_state cfg s c m
          refine ⟨⟨GInv_handleIdentify cfg c m hG, ?_⟩,
            handleIdentify_termCount cfg s c m c1 X⟩
          rw [hp]
          exact hOwn
        | some .agent =>
          simp only [handleAgentMessage]
          split_ifs with h1 h2 h3
          · exact ⟨⟨hG, hOwn⟩, rfl⟩
          · cases hid : m.id with
            | none => exact ⟨⟨hG, hOwn⟩, rfl⟩
            | some i =>
              simp only []
              cases hp : alGet i s.pendingCommands with
              | none => exact ⟨⟨hG, hOwn⟩, rfl⟩
              | some p =>
                simp only []
                constructor
                · refine ⟨GInv_resolve hG hp, ?_⟩
                  intro q hq
                  by_cases hiX : i = X
                  · subst hiX
                    rw [alGet_alDelete_self hG.1] at hq
                    cases hq
                  · rw [alGet_alDelete_ne _ fun hh => hiX hh.symm] at hq
                    exact hOwn q hq
                · by_cases hiX : i = X
                  · subst hiX
                    have hpc := hOwn p hp
                    simp [termCount, isTerminal, hpc]
                  · simp [termCount, isTerminal, hiX]
          · exact ⟨⟨hG, hOwn⟩,
              termCount_broadcast _ _ _ (.eventMsg m.event m.data) fun d => rfl⟩
          · exact ⟨⟨hG, hOwn⟩, rfl⟩
        | some .client =>
          simp only [handleClientMessage]
          split_ifs with h1
          · exact ⟨⟨hG, hOwn⟩, rfl⟩
          · cases hag : s.agentConnection with
            | none =>
              refine ⟨⟨hG, hOwn⟩, ?_⟩
              apply termCount_zero
              intro a ha
              rcases List.mem_singleton.mp ha with rfl
              by_cases hcc : c = c1
              · subst hcc
                by_cases hidX : m.id = some X
                · exact absurd ⟨rfl, not_not.mp h1, by simp [effId, hidX]⟩ hcond
                · simp [isTerminal, hidX]
              · simp [isTerminal, hcc]
            | some ag =>
              constructor
              · refine ⟨GInv_extend hG (effId s m) c
                  (match m.id with
                   | some _ => s.requestCounter | none => s.requestCounter + 1), ?_⟩
                intro q hq
                by_cases heX : effId s m = X
                · rw [heX, alGet_alSet_self] at hq
                  injection hq with hq
                  subst hq
                  intro hcc
                  exact hcond ⟨hcc, not_not.mp h1, heX⟩
                · rw [alGet_alSet_ne _ _ fun hh => heX hh.symm] at hq
                  exact hOwn q hq
              · rfl

/-- Along any continuation in which `c1` never issues a command with effective
id `X`, no response envelope with id `X` is ever delivered to `c1`. -/
theorem runOwner (cfg : Config) {c1 : ConnId} {X : String} {s : ServerState}
    {evs : List Event} (h : InvOwner c1 X s)
    (hc : condsOwner cfg c1 X s evs = true) :
    termCount c1 X (run cfg s evs).2 = 0 := by
  induction evs generalizing s with
  | nil => rfl
  | cons e evs ih =>
    simp only [condsOwner, Bool.and_eq_true] at hc
    obtain ⟨hInv, hz⟩ := stepOwner cfg h hc.1
    simp only [run]
    rw [termCount_append, hz, ih hInv hc.2]

/-! ### Claim C9 -/

/-- C9: a command from client `c2` whose caller-supplied id `X` collides with
a pending command of client `c1` silently overwrites the pending record; the
earlier command's timer is still scheduled and, firing, resolves the *newer*
record with a timeout failure delivered to `c2`; and along any continuation in
which `c1` itself never reuses id `X`, no response envelope with id `X` ever
reaches `c1`. -/
theorem command_id_collision (cfg : Config) (s : ServerState) (c1 c2 : ConnId)
    (X : String) (t1 : TimerId) (m : Message) (ag : AgentConn)
    (hG : GInv s)
    (hagent : s.agentConnection = some ag)
    (hconn2 : alGet c2 s.conns = some (some .client))
    (hpend : alGet X s.pendingCommands = some ⟨c1, t1⟩)
    (htype : m.type = some "command")
    (hX : effId s m = X)
    (hne : c1 ≠ c2) :
    alGet X (step cfg s (.message c2 (some m))).1.pendingCommands
        = some ⟨c2, s.nextTimer⟩
    ∧ alGet t1 (step cfg s (.message c2 (some m))).1.timers = some X
    ∧ (step cfg (step cfg s (.message c2 (some m))).1 (.timerFire t1)).2
        = [.send c2 (.response (some X) (some false) none (some "Command timeout"))]
    ∧ alGet X
        (step cfg (step cfg s (.message c2 (some m))).1 (.timerFire t1)).1.pendingCommands
        = none
    ∧ ∀ evs, condsOwner cfg c1 X (step cfg s (.message c2 (some m))).1 evs = true →
        termCount c1 X (run cfg (step cfg s (.message c2 (some m))).1 evs).2 = 0 := by
  have hstep := step_command_eq cfg s c2 m ag hconn2 hagent htype
  have hlt : t1 < s.nextTimer := timeout_lt_next hG (mem_of_alGet hpend)
  have ha : alGet X (step cfg s (.message c2 (some m))).1.pendingCommands
      = some ⟨c2, s.nextTimer⟩ := by
    rw [hstep]
    show alGet X (alSet (effId s m) ⟨c2, s.nextTimer⟩ s.pendingCommands)
      = some ⟨c2, s.nextTimer⟩
    rw [hX]
    exact alGet_alSet_self X _ _
  have hb : alGet t1 (step cfg s (.message c2 (some m))).1.timers = some X := by
    rw [hstep]
    show alGet t1 ((s.nextTimer, effId s m) :: s.timers) = some X
    rw [show alGet t1 ((s.nextTimer, effId s m) :: s.timers) = alGet t1 s.timers
      from by simp [alGet, Nat.ne_of_gt hlt]]
    exact hG.2.2.2 (X, ⟨c1, t1⟩) (mem_of_alGet hpend)
  have hG1 : GInv (step cfg s (.message c2 (some m))).1 :=
    GInv_step cfg (.message c2 (some m)) hG
  set s1 := (step cfg s (.message c2 (some m))).1 with hs1
  have hfirestep : step cfg s1 (.timerFire t1) =
      ({ s1 with
           timers := alDelete t1 s1.timers,
           pendingCommands := alDelete X s1.pendingCommands },
       [.send c2 (.response (some X) (some false) none (some "Command timeout"))]) := by
    simp [step, fireTimer, hb, ha]
  refine ⟨ha, hb, ?_, ?_, ?_⟩
  · rw [hfirestep]
  · rw [hfirestep]
    exact alGet_alDelete_self hG1.1
  · intro evs hconds
    refine runOwner cfg ⟨hG1, ?_⟩ hconds
    intro p hp
    rw [ha] at hp
    injection hp with hp
    rw [← hp]
    exact Ne.symm hne

/-- Witness for `command_id_collision`: client 2 reuses the id `"x"` of client
1's pending command; the concrete continuation quantifier stays universal. -/
theorem command_id_collision_witness :
    alGet "x" (step cfgOpen stateCollision
        (.message 2 (some (msgCommand "x" "getDOM")))).1.pendingCommands
        = some ⟨2, stateCollision.nextTimer⟩
    ∧ alGet 0 (step cfgOpen stateCollision
        (.message 2 (some (msgCommand "x" "getDOM")))).1.timers = some "x"
    ∧ (step cfgOpen (step cfgOpen stateCollision
        (.message 2 (some (msgCommand "x" "getDOM")))).1 (.timerFire 0)).2
        = [.send 2 (.response (some "x") (some false) none (some "Command timeout"))]
    ∧ alGet "x"
        (step cfgOpen (step cfgOpen stateCollision
          (.message 2 (some (msgCommand "x" "getDOM")))).1
          (.timerFire 0)).1.pendingCommands = none
    ∧ ∀ evs, condsOwner cfgOpen 1 "x"
          (step cfgOpen stateCollision (.message 2 (some (msgCommand "x" "getDOM")))).1
          evs = true →
        termCount 1 "x"
          (run cfgOpen
            (step cfgOpen stateCollision (.message 2 (some (msgCommand "x" "getDOM")))).1
            evs).2 = 0 :=
  command_id_collision cfgOpen stateCollision 1 2 "x" 0 (msgCommand "x" "getDOM")
    ⟨0, ⟨"default-agent", "supextension-agent", "1.0.0"⟩⟩
    (by decide) (by decide) (by decide) (by decide) rfl rfl (by decide)

/-! ### C1 machinery: the exactly-once argument -/

theorem stepB (cfg : Config) {X : String} {s : ServerState} {e : Event}
    (h : InvB X s) (hok : okEvent X s e = true) :
    InvB X (step cfg s e).1 ∧ ∀ c', termCount c' X (step cfg s e).2 = 0 := by
  obtain ⟨hG, hag, hmiss⟩ := h
  cases e with
  | connect c o => exact ⟨⟨GInv_eta hG rfl rfl rfl, hag, hmiss⟩, fun c' => rfl⟩
  | close c => simp [okEvent] at hok
  | timerFire t =>
    simp only [step, fireTimer]
    cases ht : alGet t s.timers with
    | none => exact ⟨⟨hG, hag, hmiss⟩, fun c' => rfl⟩
    | some cmdId =>
      simp only []
      by_cases hcX : cmdId = X
      · subst hcX
        rw [hmiss]
        exact ⟨⟨GInv_fire_miss hG ht hmiss, hag, hmiss⟩, fun c' => rfl⟩
      · cases hp : alGet cmdId s.pendingCommands with
        | none => exact ⟨⟨GInv_fire_miss hG ht hp, hag, hmiss⟩, fun c' => rfl⟩
        | some p =>
          simp only []
          refine ⟨⟨GInv_fire_hit hG ht hp, hag, alGet_none_alDelete hmiss⟩, ?_⟩
          intro c'
          simp [termCount, isTerminal, hcX]
  | message c raw =>
    simp only [step]
    cases hc : alGet c s.conns with
    | none => exact ⟨⟨hG, hag, hmiss⟩, fun c' => rfl⟩
    | some r =>
      simp only []
      cases raw with
      | none => exact ⟨⟨hG, hag, hmiss⟩, fun c' => rfl⟩
      | some m =>
        simp only []
        match r with
        | none =>
          obtain ⟨hpe, hte, hnte, hae⟩ := handleIdentify_state cfg s c m
          refine ⟨⟨GInv_handleIdentify cfg c m hG, ?_, ?_⟩,
            fun c' => handleIdentify_termCount cfg s c m c' X⟩
          · rcases hae with hae | hae
            · rw [hae]; exact hag
            · exact hae
          · rw [hpe]; exact hmiss
        | some .agent =>
          simp only [handleAgentMessage]
          split_ifs with h1 h2 h3
          · exact ⟨⟨hG, hag, hmiss⟩, fun c' => rfl⟩
          · cases hid : m.id with
            | none => exact ⟨⟨hG, hag, hmiss⟩, fun c' => rfl⟩
            | some i =>
              simp only []
              by_cases hiX : i = X
              · subst hiX
                rw [hmiss]
                exact ⟨⟨hG, hag, hmiss⟩, fun c' => rfl⟩
              · cases hp : alGet i s.pendingCommands with
                | none => exact ⟨⟨hG, hag, hmiss⟩, fun c' => rfl⟩
                | some p =>
                  simp only []
                  refine ⟨⟨GInv_resolve hG hp, hag, alGet_none_alDelete hmiss⟩, ?_⟩
                  intro c'
                  simp [termCount, isTerminal, hiX]
          · exact ⟨⟨hG, hag, hmiss⟩,
              fun c' => termCount_broadcast _ _ _ (.eventMsg m.event m.data)
                fun d => rfl⟩
          · exact ⟨⟨hG, hag, hmiss⟩, fun c' => rfl⟩
        | some .client =>
          simp only [handleClientMessage]
          split_ifs with h1
          · exact ⟨⟨hG, hag, hmiss⟩, fun c' => rfl⟩
          · cases hagc : s.agentConnection with
            | none => rw [hagc] at hag; cases hag
            | some ag =>
              have heX : effId s m ≠ X := by
                intro hh
                simp [okEvent, not_not.mp h1, hh] at hok
              refine ⟨⟨GInv_extend hG (effId s m) c
                  (match m.id with
                   | some _ => s.requestCounter | none => s.requestCounter + 1),
                rfl, ?_⟩, fun c' => rfl⟩
              rw [alGet_alSet_ne _ _ fun hh => heX hh.symm]
              exact hmiss

theorem stepA (cfg : Config) {c : ConnId} {X : String} {t : TimerId}
    {s : ServerState} {e : Event} (h : InvA c X t s) (hok : okEvent X s e = true)
    (hne : e ≠ .timerFire t) :
    (InvA c X t (step cfg s e).1 ∧ termCount c X (step cfg s e).2 = 0)
    ∨ (InvB X (step cfg s e).1 ∧ termCount c X (step cfg s e).2 = 1) := by
  obtain ⟨hG, hag, hpend, htmr, huniq⟩ := h
  cases e with
  | connect c' o => exact Or.inl ⟨⟨GInv_eta hG rfl rfl rfl, hag, hpend, htmr, huniq⟩, rfl⟩
  | close c' => simp [okEvent] at hok
  | timerFire t' =>
    have htt : t' ≠ t := fun hh => hne (by rw [hh])
    simp only [step, fireTimer]
    cases ht' : alGet t' s.timers with
    | none => exact Or.inl ⟨⟨hG, hag, hpend, htmr, huniq⟩, rfl⟩
    | some cmdId =>
      simp only []
      have hcmdne : cmdId ≠ X :=
        fun hh => htt (huniq (t', cmdId) (mem_of_alGet ht') hh)
      cases hp : alGet cmdId s.pendingCommands with
      | none =>
        refine Or.inl ⟨⟨GInv_fire_miss hG ht' hp, hag, hpend, ?_, ?_⟩, rfl⟩
        · rw [alGet_alDelete_ne _ htt.symm]
          exact htmr
        · intro p hp'
          exact huniq p (mem_alDelete hp')
      | some p =>
        simp only []
        refine Or.inl ⟨⟨GInv_fire_hit hG ht' hp, hag, ?_, ?_, ?_⟩, ?_⟩
        · rw [alGet_alDelete_ne _ fun hh => hcmdne hh.symm]
          exact hpend
        · rw [alGet_alDelete_ne _ fun hh => htt hh.symm]
          exact htmr
        · intro q hq'
          exact huniq q (mem_alDelete hq')
        · simp [termCount, isTerminal, hcmdne]
  | message c' raw =>
    simp only [step]
    cases hc : alGet c' s.conns with
    | none => exact Or.inl ⟨⟨hG, hag, hpend, htmr, huniq⟩, rfl⟩
    | some r =>
      simp only []
      cases raw with
      | none => exact Or.inl ⟨⟨hG, hag, hpend, htmr, huniq⟩, rfl⟩
      | some m =>
        simp only []
        match r with
        | none =>
          obtain ⟨hpe, hte, hnte, hae⟩ := handleIdentify_state cfg s c' m
          refine Or.inl ⟨⟨GInv_handleIdentify cfg c' m hG, ?_, ?_, ?_, ?_⟩,
            handleIdentify_termCount cfg s c' m c X⟩
          · rcases hae with hae | hae
            · rw [hae]; exact hag
            · exact hae
          · rw [hpe]; exact hpend
          · rw [hte]; exact htmr
          · rw [hte]; exact huniq
        | some .agent =>
          simp only [handleAgentMessage]
          split_ifs with h1 h2 h3
          · exact Or.inl ⟨⟨hG, hag, hpend, htmr, huniq⟩, rfl⟩
          · cases hid : m.id with
            | none => exact Or.inl ⟨⟨hG, hag, hpend, htmr, huniq⟩, rfl⟩
            | some i =>
              simp only []
              cases hp : alGet i s.pendingCommands with
              | none => exact Or.inl ⟨⟨hG, hag, hpend, htmr, huniq⟩, rfl⟩
              | some p =>
                simp only []
                by_cases hiX : i = X
                · subst hiX
                  rw [hpend] at hp
                  injection hp with hp
                  subst hp
                  refine Or.inr ⟨⟨GInv_resolve hG hpend, hag,
                    alGet_alDelete_self hG.1⟩, ?_⟩
                  simp [termCount, isTerminal]
                · have hpt : p.timeout ≠ t := by
                    intro hh
                    have hlp := hG.2.2.2 (i, p) (mem_of_alGet hp)
                    rw [hh, htmr] at hlp
                    injection hlp with hlp
                    exact hiX hlp.symm
                  refine Or.inl ⟨⟨GInv_resolve hG hp, hag, ?_, ?_, ?_⟩, ?_⟩
                  · rw [alGet_alDelete_ne _ fun hh => hiX hh.symm]
                    exact hpend
                  · rw [alGet_alDelete_ne _ fun hh => hpt hh.symm]
                    exact htmr
                  · intro q hq'
                    exact huniq q (mem_alDelete hq')
                  · simp [termCount, isTerminal, hiX]
          · exact Or.inl ⟨⟨hG, hag, hpend, htmr, huniq⟩,
              termCount_broadcast _ _ _ (.eventMsg m.event m.data) fun d => rfl⟩
          · exact Or.inl ⟨⟨hG, hag, hpend, htmr, huniq⟩, rfl⟩
        | some .client =>
          simp only [handleClientMessage]
          split_ifs with h1
          · exact Or.inl ⟨⟨hG, hag, hpend, htmr, huniq⟩, rfl⟩
          · cases hagc : s.agentConnection with
            | none => rw [hagc] at hag; cases hag
            | some ag =>
              have heX : effId s m ≠ X := by
                intro hh
                simp [okEvent, not_not.mp h1, hh] at hok
              have hlt : t < s.nextTimer := hG.2.2.1 (t, X) (mem_of_alGet htmr)
              refine Or.inl ⟨⟨GInv_extend hG (effId s m) c'
                  (match m.id with
                   | some _ => s.requestCounter | none => s.requestCounter + 1),
                rfl, ?_, ?_, ?_⟩, rfl⟩
              · rw [alGet_alSet_ne _ _ fun hh => heX hh.symm]
                exact hpend
              · rw [show alGet t ((s.nextTimer, effId s m) :: s.timers)
                    = alGet t s.timers from by simp [alGet, Nat.ne_of_gt hlt]]
                exact htmr
              · intro p hp'
                rcases List.mem_cons.mp hp' with hh | hh
                · subst hh
                  intro h2X
                  exact absurd h2X heX
                · exact huniq p hh

theorem stepA_fire (cfg : Config) {c : ConnId} {X : String} {t : TimerId}
    {s : ServerState} (h : InvA c X t s) :
    InvB X (step cfg s (.timerFire t)).1
    ∧ termCount c X (step cfg s (.timerFire t)).2 = 1 := by
  obtain ⟨hG, hag, hpend, htmr, huniq⟩ := h
  simp only [step, fireTimer, htmr, hpend]
  refine ⟨⟨GInv_fire_hit hG htmr hpend, hag, alGet_alDelete_self hG.1⟩, ?_⟩
  simp [termCount, isTerminal]

theorem runB (cfg : Config) {X : String} {s : ServerState} {evs : List Event}
    (h : InvB X s) (hc : conds cfg X s evs = true) :
    ∀ c', termCount c' X (run cfg s evs).2 = 0 := by
  induction evs generalizing s with
  | nil => exact fun c' => rfl
  | cons e evs ih =>
    intro c'
    simp only [conds, Bool.and_eq_true] at hc
    obtain ⟨hInv, hz⟩ := stepB cfg h hc.1
    simp only [run]
    rw [termCount_append, hz c', ih hInv hc.2 c']

theorem runA_fire (cfg : Config) {c : ConnId} {X : String} {t : TimerId}
    {s : ServerState} {evs : List Event} (hA : InvA c X t s)
    (hc : conds cfg X s evs = true) (hfire : Event.timerFire t ∈ evs) :
    termCount c X (run cfg s evs).2 = 1 := by
  induction evs generalizing s with
  | nil => cases hfire
  | cons e evs ih =>
    simp only [conds, Bool.and_eq_true] at hc
    simp only [run]
    rw [termCount_append]
    by_cases he : e = Event.timerFire t
    · subst he
      obtain ⟨hB, h1⟩ := stepA_fire cfg hA
      rw [h1, runB cfg hB hc.2 c]
    · rcases stepA cfg hA hc.1 he with ⟨hA', h0⟩ | ⟨hB, h1⟩
      · have hfire' : Event.timerFire t ∈ evs := by
          rcases List.mem_cons.mp hfire with hh | hh
          · exact absurd hh.symm he
          · exact hh
        rw [h0, ih hA' hc.2 hfire']
      · rw [h1, runB cfg hB hc.2 c]

/-! ### Claim C1 (corrected) -/

/-- Counterexample to C1: client 1 issues command `"x"` while the agent is
connected and stays connected, no connection ever closes, client 1's allotted
deadline timer is invoked within the trace — yet client 1 receives zero
terminal responses with that correlation id, because client 2 reused the id
and hijacked the pending record. -/
theorem exactly_once_counterexample :
    stateACC.agentConnection.isSome = true
    ∧ alGet 1 stateACC.conns = some (some .client)
    ∧ effId stateACC (msgCommand "x" "navigate") = "x"
    ∧ Event.timerFire stateACC.nextTimer ∈ collisionSuffix
    ∧ collisionSuffix.all
        (fun e => match e with | .close _ => false | _ => true) = true
    ∧ termCount 1 "x"
        (run cfgOpen
          (step cfgOpen stateACC (.message 1 (some (msgCommand "x" "navigate")))).1
          collisionSuffix).2 = 0 := by
  decide

/-- C1 as amended: for a command sent by an identified client while an agent
is connected, whose correlation id is neither pending nor captured by any
still-scheduled timer, and along a continuation that closes no connection,
reuses the id in no other command, and invokes the command's allotted
deadline timer, exactly one terminal response with that id reaches the
client — the agent's (timely) answer or a timeout failure, never both and
never neither. -/
theorem exactly_once_per_command (cfg : Config) (s : ServerState) (c : ConnId)
    (m : Message) (X : String) (ag : AgentConn) (evs : List Event)
    (hG : GInv s)
    (hagent : s.agentConnection = some ag)
    (hconn : alGet c s.conns = some (some .client))
    (htype : m.type = some "command")
    (hX : effId s m = X)
    (hfresh : alGet X s.pendingCommands = none)
    (hnocap : ∀ p ∈ s.timers, p.2 ≠ X)
    (hconds : conds cfg X (step cfg s (.message c (some m))).1 evs = true)
    (hfire : Event.timerFire s.nextTimer ∈ evs) :
    termCount c X (run cfg (step cfg s (.message c (some m))).1 evs).2 = 1 := by
  have hstep := step_command_eq cfg s c m ag hconn hagent htype
  have hA : InvA c X s.nextTimer (step cfg s (.message c (some m))).1 := by
    rw [hstep]
    refine ⟨GInv_extend hG (effId s m) c
        (match m.id with | some _ => s.requestCounter | none => s.requestCounter + 1),
      ?_, ?_, ?_, ?_⟩
    · show s.agentConnection.isSome = true
      rw [hagent]
      rfl
    · show alGet X (alSet (effId s m) ⟨c, s.nextTimer⟩ s.pendingCommands)
        = some ⟨c, s.nextTimer⟩
      rw [hX]
      exact alGet_alSet_self X _ _
    · show alGet s.nextTimer ((s.nextTimer, effId s m) :: s.timers) = some X
      simp [alGet, hX]
    · intro p hp'
      rcases List.mem_cons.mp hp' with hh | hh
      · subst hh
        intro h2X
        rfl
      · intro h2X
        exact absurd h2X (hnocap p hh)
  exact runA_fire cfg hA hconds hfire

/-- Witness for `exactly_once_per_command`: command `"z"` from client 1 with
agent connected; the continuation consists of the deadline timer firing, and
exactly one terminal response (the timeout) reaches client 1. -/
theorem exactly_once_per_command_witness :
    termCount 1 "z"
      (run cfgOpen
        (step cfgOpen stateAC (.message 1 (some (msgCommand "z" "navigate")))).1
        [.timerFire stateAC.nextTimer]).2 = 1 :=
  exactly_once_per_command cfgOpen stateAC 1 (msgCommand "z" "navigate") "z"
    ⟨0, ⟨"default-agent", "supextension-agent", "1.0.0"⟩⟩
    [.timerFire stateAC.nextTimer]
    (by decide) (by decide) (by decide) rfl rfl (by decide) (by decide)
    (by decide) (by decide)

end Puppet
